import Mathlib

/-!
Verification of the kyverno policy engine core against its specification.

The Go sources are shallowly embedded: JSON trees (`map[string]interface{}`,
`[]interface{}`, `string`, `float64`, `bool`, `nil`) become the inductive
`Json`; Go functions become Lean functions with the source names; fallible
code returns `Except`; a Go panic (failed type assertion, index out of
range) is the `EvalErr.panic` constructor, an ordinary returned `error` is
`EvalErr.goErr`.  Go map iteration order is unspecified; the embedding uses
association lists in policy-document order.  JSON numbers are modelled as
integers (the engine only compares them; fractional literals are not needed
by any property below).
-/

namespace Kyverno

/-- JSON-like trees: the dynamic values the engine traverses. -/
inductive Json where
  | null
  | bool (b : Bool)
  | num (n : Int)
  | str (s : String)
  | arr (elems : List Json)
  | obj (fields : List (String × Json))
deriving BEq

/-- Fields of a JSON object, in policy-document order. -/
abbrev Fields := List (String × Json)

/-- Association-list lookup, modelling Go map indexing `m[key]` with its ok flag. -/
def lookupField : Fields → String → Option Json
  | [], _ => none
  | (k, v) :: rest, key => if k == key then some v else lookupField rest key

/-- Error layer: `goErr` is a Go `error` value, `panic` is a Go runtime panic
(failed type assertion or index out of range). -/
inductive EvalErr where
  | goErr (msg : String)
  | panic (msg : String)
deriving BEq

/- ---------------------------------------------------------------------
Anchors (src/unnamed/part_001).  Go strings are byte arrays indexed by
position; keys are ASCII, so `List Char` is a faithful carrier and the
`String` wrappers keep the source names.
--------------------------------------------------------------------- -/

/-- Character-list core of `isConditionAnchor`: length at least 2, first
byte `(`, last byte `)`. -/
def isConditionAnchorChars (s : List Char) : Bool :=
  decide (s.length ≥ 2) && (s.head? == some '(') && (s.getLast? == some ')')

/-- Source `isConditionAnchor` (part_001 lines 209-215). -/
def isConditionAnchor (s : String) : Bool :=
  isConditionAnchorChars s.toList

/-- Character-list core of `isExistanceAnchor`: length at least 3, leading
`^(`, trailing `)`. -/
def isExistanceAnchorChars (s : List Char) : Bool :=
  decide (s.length ≥ 3) && (s.take 2 == ['^', '(']) && (s.getLast? == some ')')

/-- Source `isExistanceAnchor` (part_001 lines 239-248). -/
def isExistanceAnchor (s : String) : Bool :=
  isExistanceAnchorChars s.toList

/-- Character-list core of `isAddingAnchor`: length at least 3, leading
`+(`, trailing `)`. -/
def isAddingAnchorChars (s : List Char) : Bool :=
  decide (s.length ≥ 3) && (s.take 2 == ['+', '(']) && (s.getLast? == some ')')

/-- Source `isAddingAnchor` (part_001 lines 250-259). -/
def isAddingAnchor (s : String) : Bool :=
  isAddingAnchorChars s.toList

/-- Character-list core of `removeAnchor`. -/
def removeAnchorChars (key : List Char) : List Char :=
  if isConditionAnchorChars key then (key.drop 1).dropLast
  else if isExistanceAnchorChars key || isAddingAnchorChars key then (key.drop 2).dropLast
  else key

/-- Source `removeAnchor` (part_001 lines 280-290): strip the anchor
decoration around a key. -/
def removeAnchor (key : String) : String :=
  String.mk (removeAnchorChars key.toList)

/-- Character-list core of `getRawKeyIfWrappedWithAttributes`. -/
def getRawKeyIfWrappedWithAttributesChars (s : List Char) : List Char :=
  if s.length < 2 then s
  else if s.head? == some '(' && s.getLast? == some ')' then (s.drop 1).dropLast
  else if (s.head? == some '$' || s.head? == some '^' || s.head? == some '+')
      && (s[1]? == some '(' && s.getLast? == some ')') then (s.drop 2).dropLast
  else s

/-- Source `getRawKeyIfWrappedWithAttributes` (part_001 lines 217-229). -/
def getRawKeyIfWrappedWithAttributes (s : String) : String :=
  String.mk (getRawKeyIfWrappedWithAttributesChars s.toList)

/-- Character-list core of `isStringIsReference`: length at least 3 (the
length of the reference sign), leading `$(`, trailing `)`. -/
def isStringIsReferenceChars (s : List Char) : Bool :=
  decide (s.length ≥ 3) && (s.take 2 == ['$', '(']) && (s.getLast? == some ')')

/-- Source `isStringIsReference` (part_001 lines 231-237). -/
def isStringIsReference (s : String) : Bool :=
  isStringIsReferenceChars s.toList

/-- Source `getAnchorsFromMap` (part_001 lines 164-174): keep the condition
and existence anchors of a map. -/
def getAnchorsFromMap (anchorsMap : Fields) : Fields :=
  anchorsMap.filter (fun kv => isConditionAnchor kv.1 || isExistanceAnchor kv.1)

/-- Source `getAnchorFromMap` (part_001 lines 190-198): first condition or
existence anchor of the map, if any (Go returns `("", nil)` when none). -/
def getAnchorFromMap : Fields → Option (String × Json)
  | [] => none
  | (key, value) :: rest =>
    if isConditionAnchor key || isExistanceAnchor key then some (key, value)
    else getAnchorFromMap rest

/-- Source `findKind` (part_001 lines 200-207): linear membership scan. -/
def findKind : List String → String → Bool
  | [], _ => false
  | kind :: rest, kindGVK => if kind == kindGVK then true else findKind rest kindGVK

/- ---------------------------------------------------------------------
Value-pattern evaluator (spec component C1).
--------------------------------------------------------------------- -/

/-- Accumulator loop for `parseDigits`. -/
def parseDigitsAux : List Char → Nat → Option Nat
  | [], acc => some acc
  | c :: cs, acc =>
    if c.isDigit then parseDigitsAux cs (acc * 10 + (c.toNat - '0'.toNat))
    else none

/-- Decimal digits to a number, `none` when the list is empty or holds a
non-digit. -/
def parseDigits : List Char → Option Nat
  | [] => none
  | l => parseDigitsAux l 0

/-- Modelled from the spec: `strconv.ParseFloat` is library code, used here
only on integral decimals.  Parses an optional sign followed by digits;
fractional and exponent forms are not needed by any property below. -/
def parseNumber (s : String) : Option Int :=
  match s.toList with
  | '-' :: rest => (parseDigits rest).map (fun n => -(n : Int))
  | l => (parseDigits l).map (fun n => (n : Int))

/-- Fuel-driven core of the glob matcher; the fuel strictly exceeds the sum
of both lengths, which every step decreases, so it never runs out. -/
def wildcardMatchAux : Nat → List Char → List Char → Bool
  | 0, _, _ => false
  | fuel + 1, p, s =>
    match p, s with
    | [], [] => true
    | '*' :: ps, [] => wildcardMatchAux fuel ps []
    | '*' :: ps, c :: cs =>
      wildcardMatchAux fuel ps (c :: cs) || wildcardMatchAux fuel ('*' :: ps) cs
    | '?' :: ps, _ :: cs => wildcardMatchAux fuel ps cs
    | p1 :: ps, c :: cs => p1 == c && wildcardMatchAux fuel ps cs
    | _, _ => false

/-- Modelled from the spec: `wildcard.Match` is vendored library code.  Unix
shell glob, `*` any run, `?` one character. -/
def wildcardMatch (pattern value : String) : Bool :=
  wildcardMatchAux (pattern.length + value.length + 1) pattern.toList value.toList

/-- Byte-wise prefix test over character lists (second argument is the
candidate prefix), modelling Go string slicing comparisons. -/
def charsStartsWith : List Char → List Char → Bool
  | _, [] => true
  | [], _ :: _ => false
  | c :: cs, p :: ps => c == p && charsStartsWith cs ps

/-- String wrapper of `charsStartsWith`. -/
def strStartsWith (s p : String) : Bool :=
  charsStartsWith s.toList p.toList

/-- Drop the first `n` characters, modelling Go slicing `s[n:]` on ASCII
text. -/
def strDrop (s : String) (n : Nat) : String :=
  String.mk (s.toList.drop n)

/-- Accumulator loop of `splitOnSlash`. -/
def splitOnSlashAux : List Char → List Char → List String
  | [], acc => [String.mk acc.reverse]
  | c :: cs, acc =>
    if c == '/' then String.mk acc.reverse :: splitOnSlashAux cs []
    else splitOnSlashAux cs (c :: acc)

/-- Modelled from the spec: `strings.Split` on the slash separator. -/
def splitOnSlash (s : String) : List String :=
  splitOnSlashAux s.toList []

/-- Modelled from the spec: `getOperatorFromStringPattern` is not under
src/; the operator set is the spec list, two-character operators checked
first, empty operator meaning equality. -/
def getOperatorFromStringPattern (pattern : String) : String :=
  if strStartsWith pattern ">=" then ">="
  else if strStartsWith pattern "<=" then "<="
  else if strStartsWith pattern "!=" then "!="
  else if strStartsWith pattern ">" then ">"
  else if strStartsWith pattern "<" then "<"
  else if strStartsWith pattern "!" then "!"
  else if strStartsWith pattern "=" then "="
  else ""

/-- Numeric view of a JSON leaf: a number, or a string that parses as one. -/
def jsonToNumber : Json → Option Int
  | .num n => some n
  | .str s => parseNumber s
  | _ => none

/-- Equality step of the value-pattern evaluator: numeric coercion when both
sides parse as numbers, glob comparison for strings, literal text for the
other scalars. -/
def validateEquality (value : Json) (operand : String) : Bool :=
  match value with
  | .str s =>
    match parseNumber operand, parseNumber s with
    | some a, some b => b == a
    | _, _ => wildcardMatch operand s
  | .num v =>
    match parseNumber operand with
    | some a => v == a
    | none => false
  | .bool b => operand == (if b then "true" else "false")
  | .null => operand == "null"
  | _ => false

/-- String-pattern atom: split off the operator, then compare. -/
def validateValueWithStringPattern (value : Json) (pattern : String) : Bool :=
  let op := getOperatorFromStringPattern pattern
  let operand := strDrop pattern op.length
  if op == "" || op == "=" then validateEquality value operand
  else if op == "!" || op == "!=" then !(validateEquality value operand)
  else
    match jsonToNumber value, parseNumber operand with
    | some v, some n =>
      if op == ">" then decide (v > n)
      else if op == "<" then decide (v < n)
      else if op == ">=" then decide (v ≥ n)
      else decide (v ≤ n)
    | _, _ => false

/-- Modelled from the spec: `ValidateValueWithPattern` (value-pattern
evaluator, spec section 4.1) is not under src/, only its callers are.
Non-string literals compare structurally after numeric coercion; strings
carry an operator and operand; map or slice patterns are unsupported and
fail. -/
def ValidateValueWithPattern (value pattern : Json) : Bool :=
  match pattern with
  | .bool b =>
    match value with
    | .bool v => v == b
    | _ => false
  | .null =>
    match value with
    | .null => true
    | _ => false
  | .num n =>
    match value with
    | .num v => v == n
    | .str s => parseNumber s == some n
    | _ => false
  | .str p => validateValueWithStringPattern value p
  | .arr _ => false
  | .obj _ => false

/-- Source `skipArrayObject` (part_001 lines 262-277): an array element is
skipped when some anchored key is missing from it or fails its pattern.
Go strips one byte from each end of the anchor key. -/
def skipArrayObject (object : Fields) : Fields → Bool
  | [] => false
  | (key, pattern) :: rest =>
    let key := String.mk ((key.toList.drop 1).dropLast)
    match lookupField object key with
    | none => true
    | some value =>
      if !(ValidateValueWithPattern value pattern) then true
      else skipArrayObject object rest

/- ---------------------------------------------------------------------
JSON serialization, modelling `encoding/json.Marshal` on unmarshalled
trees: object keys are emitted in sorted order, no whitespace; only the
quote and backslash escapes are modelled (keys and values in the policies
considered contain no control characters).
--------------------------------------------------------------------- -/

/-- Escape quote and backslash, the JSON string escapes the engine can hit
on the inputs considered. -/
def escapeChars : List Char → List Char
  | [] => []
  | c :: cs =>
    if c == '"' || c == '\\' then '\\' :: c :: escapeChars cs
    else c :: escapeChars cs

/-- String form of `escapeChars`. -/
def escapeString (s : String) : String :=
  String.mk (escapeChars s.toList)

/-- Insert one rendered field into a key-sorted list. -/
def insertRendered (kv : String × String) : List (String × String) → List (String × String)
  | [] => [kv]
  | kv2 :: rest =>
    if kv.1 < kv2.1 then kv :: kv2 :: rest else kv2 :: insertRendered kv rest

/-- Insertion sort of rendered fields by key, modelling the sorted key
order of `json.Marshal` on Go maps. -/
def sortRendered : List (String × String) → List (String × String)
  | [] => []
  | kv :: rest => insertRendered kv (sortRendered rest)

/-- Comma-join rendered object fields as `"key":value`. -/
def joinFields : List (String × String) → String
  | [] => ""
  | [(k, v)] => "\"" ++ escapeString k ++ "\":" ++ v
  | (k, v) :: rest => "\"" ++ escapeString k ++ "\":" ++ v ++ "," ++ joinFields rest

/-- Comma-join rendered array elements. -/
def joinElems : List String → String
  | [] => ""
  | [v] => v
  | v :: rest => v ++ "," ++ joinElems rest

mutual
/-- Serializer for `Json`, modelling `json.Marshal` output. -/
def jsonSerialize : Json → String
  | .null => "null"
  | .bool b => if b then "true" else "false"
  | .num n => toString n
  | .str s => "\"" ++ escapeString s ++ "\""
  | .arr xs => "[" ++ joinElems (renderElems xs) ++ "]"
  | .obj kvs => "\x7b" ++ joinFields (sortRendered (renderFields kvs)) ++ "\x7d"

/-- Render each field value, keeping the key. -/
def renderFields : Fields → List (String × String)
  | [] => []
  | (k, v) :: rest => (k, jsonSerialize v) :: renderFields rest

/-- Render each array element. -/
def renderElems : List Json → List String
  | [] => []
  | v :: rest => jsonSerialize v :: renderElems rest
end

/- ---------------------------------------------------------------------
Overlay mutator (src/unnamed/part_003).
--------------------------------------------------------------------- -/

/-- JSON-Patch operation.  Go builds the raw bytes
`[ op, path, serialized value ]` directly; the embedding keeps the value as
a tree (its serialization is `prepareJSONValue`) since the appliers reparse
it and object key order is immaterial to JSON-Patch semantics. -/
structure Patch where
  op : String
  path : String
  value : Json
deriving BEq

mutual
/-- Source `hasOnlyAnchors` (part_003 lines 290-313): a map all of whose
keys are condition or existence anchors, or whose values all consist only
of anchors, carries no insertable content. -/
def hasOnlyAnchors : Json → Bool
  | .obj typed =>
    if (getAnchorsFromMap typed).length == typed.length then true
    else hasOnlyAnchorsFields typed
  | .arr typed => hasOnlyAnchorsElems typed
  | _ => false

/-- Field loop of `hasOnlyAnchors`. -/
def hasOnlyAnchorsFields : Fields → Bool
  | [] => true
  | (_, value) :: rest => hasOnlyAnchors value && hasOnlyAnchorsFields rest

/-- Element loop of `hasOnlyAnchors`. -/
def hasOnlyAnchorsElems : List Json → Bool
  | [] => true
  | value :: rest => hasOnlyAnchors value && hasOnlyAnchorsElems rest
end

mutual
/-- Source `hasNestedAnchors` (part_003 lines 316-339): does any map in the
subtree carry a condition or existence anchor. -/
def hasNestedAnchors : Json → Bool
  | .obj typed =>
    if (getAnchorsFromMap typed).length > 0 then true
    else hasNestedAnchorsFields typed
  | .arr typed => hasNestedAnchorsElems typed
  | _ => false

/-- Field loop of `hasNestedAnchors`. -/
def hasNestedAnchorsFields : Fields → Bool
  | [] => false
  | (_, value) :: rest => hasNestedAnchors value || hasNestedAnchorsFields rest

/-- Element loop of `hasNestedAnchors`. -/
def hasNestedAnchorsElems : List Json → Bool
  | [] => false
  | value :: rest => hasNestedAnchors value || hasNestedAnchorsElems rest
end

/-- Path normalization from `processSubtree` (part_003 lines 255-261):
drop one trailing slash of a path longer than one byte, and write the
empty path as the root path. -/
def normalizePath (path : String) : String :=
  let path :=
    if path.length > 1 && path.toList.getLast? == some '/' then
      String.mk path.toList.dropLast
    else path
  if path == "" then "/" else path

/-- Source `prepareJSONValue` (part_003 lines 277-286): serialize the
overlay, or return the empty string when the subtree has only anchors
(Go also returns it on a marshal error, which the tree type rules out). -/
def prepareJSONValue (overlay : Json) : String :=
  if hasOnlyAnchors overlay then "" else jsonSerialize overlay

/-- Source `processSubtree` (part_003 lines 253-274).  Go interpolates the
value into the patch bytes and runs `jsonpatch.DecodePatch` over them; for
serializer output and slash-and-name paths that check fails exactly when
the value string is empty, and Go then returns its formatted error (which
quotes op and value, quotes omitted here). -/
def processSubtree (overlay : Json) (path op : String) : Except EvalErr Patch :=
  let path := normalizePath path
  let value := prepareJSONValue overlay
  if value == "" then
    .error (.goErr ("Failed to make " ++ op ++ " patch from an overlay " ++ value
      ++ " for path " ++ path))
  else .ok ⟨op, path, overlay⟩

/-- Source `insertSubtree` (part_003 lines 245-247). -/
def insertSubtree (overlay : Json) (path : String) : Except EvalErr Patch :=
  processSubtree overlay path "add"

/-- Source `replaceSubtree` (part_003 lines 249-251). -/
def replaceSubtree (overlay : Json) (path : String) : Except EvalErr Patch :=
  processSubtree overlay path "replace"

/-- Runtime type tag, modelling `reflect.TypeOf` comparisons: every JSON
number unmarshals to `float64`, so all numbers share one tag, and a nil
interface has its own (nil) type. -/
def typeTag : Json → Nat
  | .null => 0
  | .bool _ => 1
  | .num _ => 2
  | .str _ => 3
  | .arr _ => 4
  | .obj _ => 5

/-- Append loop of `applyOverlayToArrayOfSameTypes` (part_003 lines
166-177): insert each overlay element at the index past the end of the
resource array (`lastElementIdx` is the resource length, `i` the running
overlay index). -/
def appendOverlayElems (lastElementIdx : Nat) (overlay : List Json) (i : Nat)
    (path : String) : Except EvalErr (List Patch) :=
  match overlay with
  | [] => .ok []
  | value :: rest => do
    let patch ← insertSubtree value (path ++ toString (lastElementIdx + i) ++ "/")
    let more ← appendOverlayElems lastElementIdx rest (i + 1) path
    .ok (patch :: more)

mutual
/-- Source `applyOverlay` (part_003 lines 44-57).  On a type mismatch the
source builds a replace patch into a local list, but then unconditionally
returns `applyOverlayForSameTypes`, discarding that list; only the error
path of the discarded patch is observable. -/
def applyOverlay (resource overlay : Json) (path : String) : Except EvalErr (List Patch) :=
  if typeTag resource != typeTag overlay then do
    let _ ← replaceSubtree overlay path
    applyOverlayForSameTypes resource overlay path
  else applyOverlayForSameTypes resource overlay path
termination_by (sizeOf overlay, 1, 0)

/-- Source `applyOverlayForSameTypes` (part_003 lines 60-93): dispatch on
the overlay type; the type assertions on the resource panic when
`applyOverlay` reached here with mismatched types.  A nil overlay falls to
the unsupported-type error. -/
def applyOverlayForSameTypes (resource overlay : Json) (path : String) :
    Except EvalErr (List Patch) :=
  match overlay with
  | .obj typedOverlay =>
    match resource with
    | .obj typedResource => applyOverlayToMap typedResource typedOverlay path
    | _ => .error (.panic "interface conversion: interface is not a map")
  | .arr typedOverlay =>
    match resource with
    | .arr typedResource => applyOverlayToArray typedResource typedOverlay path
    | _ => .error (.panic "interface conversion: interface is not a slice")
  | .str _ | .num _ | .bool _ => do
    let patch ← replaceSubtree overlay path
    .ok [patch]
  | .null => .error (.goErr "Overlay has unsupported type")
termination_by (sizeOf overlay, 0, 0)

/-- Source `applyOverlayToMap` (part_003 lines 96-130): condition-anchored
keys are passed over without evaluation; other keys recurse when present in
the resource (unless adding-anchored) and insert the subtree when absent. -/
def applyOverlayToMap (resourceMap overlayMap : Fields) (path : String) :
    Except EvalErr (List Patch) :=
  match overlayMap with
  | [] => .ok []
  | (key, value) :: rest =>
    if isConditionAnchor key then applyOverlayToMap resourceMap rest path
    else
      let noAnchorKey := removeAnchor key
      let currentPath := path ++ noAnchorKey ++ "/"
      match lookupField resourceMap noAnchorKey with
      | some resourcePart =>
        if isAddingAnchor key then applyOverlayToMap resourceMap rest path
        else do
          let patches ← applyOverlay resourcePart value currentPath
          let more ← applyOverlayToMap resourceMap rest path
          .ok (patches ++ more)
      | none => do
        let patch ← insertSubtree value currentPath
        let more ← applyOverlayToMap resourceMap rest path
        .ok (patch :: more)
termination_by (sizeOf overlayMap, 0, 0)

/-- Source `applyOverlayToArray` (part_003 lines 133-156): an empty overlay
array is an error regardless of the resource; an empty resource array takes
a single insert of the whole overlay array; otherwise the first elements
must have equal types. -/
def applyOverlayToArray (resource overlay : List Json) (path : String) :
    Except EvalErr (List Patch) :=
  match overlay with
  | [] => .error (.goErr "Empty array detected in the overlay")
  | o0 :: os =>
    match resource with
    | [] => do
      let patch ← insertSubtree (.arr (o0 :: os)) path
      .ok [patch]
    | r0 :: _ =>
      if typeTag r0 != typeTag o0 then
        .error (.goErr "Overlay array and resource array have elements of different types")
      else applyOverlayToArrayOfSameTypes resource (o0 :: os) path
termination_by (sizeOf overlay, 2, 0)

/-- Source `applyOverlayToArrayOfSameTypes` (part_003 lines 159-181):
array-of-maps mode when the first overlay element is a map, append mode
otherwise. -/
def applyOverlayToArrayOfSameTypes (resource overlay : List Json) (path : String) :
    Except EvalErr (List Patch) :=
  match overlay with
  | (.obj f0) :: os => applyOverlayToArrayOfMaps resource (.obj f0 :: os) 0 path
  | o0 :: os => appendOverlayElems resource.length (o0 :: os) 0 path
  | [] => .error (.panic "index out of range")
termination_by (sizeOf overlay, 1, 0)

/-- Source `applyOverlayToArrayOfMaps` (part_003 lines 184-223), iterating
the overlay elements with their index `i`: elements with top-level anchors
select resource elements, elements with only nested anchors recurse over
every resource element, and anchor-free elements are appended. -/
def applyOverlayToArrayOfMaps (resource overlay : List Json) (i : Nat) (path : String) :
    Except EvalErr (List Patch) :=
  match overlay with
  | [] => .ok []
  | overlayElement :: rest =>
    match overlayElement with
    | .obj typedOverlay =>
      let anchors := getAnchorsFromMap typedOverlay
      if anchors.length > 0 then do
        let patches ← applyOverlayWithAnchors resource 0 (.obj typedOverlay) anchors path
        let more ← applyOverlayToArrayOfMaps resource rest (i + 1) path
        .ok (patches ++ more)
      else if hasNestedAnchors overlayElement then do
        let patches ← applyOverlayElemwise resource 0 (.obj typedOverlay) path
        let more ← applyOverlayToArrayOfMaps resource rest (i + 1) path
        .ok (patches ++ more)
      else do
        let patch ← insertSubtree overlayElement (path ++ toString (resource.length + i) ++ "/")
        let more ← applyOverlayToArrayOfMaps resource rest (i + 1) path
        .ok (patch :: more)
    | _ => .error (.panic "interface conversion: interface is not a map")
termination_by (sizeOf overlay, 0, 0)

/-- Source `applyOverlayWithAnchors` (part_003 lines 225-243), iterating
the resource elements with their index `i`: elements that
`skipArrayObject` rejects contribute nothing, the others receive the
overlay element. -/
def applyOverlayWithAnchors (resource : List Json) (i : Nat) (overlay : Json)
    (anchors : Fields) (path : String) : Except EvalErr (List Patch) :=
  match resource with
  | [] => .ok []
  | resourceElement :: rest =>
    match resourceElement with
    | .obj typedResource =>
      let currentPath := path ++ toString i ++ "/"
      if !skipArrayObject typedResource anchors then do
        let patches ← applyOverlay resourceElement overlay currentPath
        let more ← applyOverlayWithAnchors rest (i + 1) overlay anchors path
        .ok (patches ++ more)
      else applyOverlayWithAnchors rest (i + 1) overlay anchors path
    | _ => .error (.panic "interface conversion: interface is not a map")
termination_by (sizeOf overlay, 2, sizeOf resource)

/-- Element-wise loop of `applyOverlayToArrayOfMaps` (part_003 lines
199-209) for overlay elements with only nested anchors. -/
def applyOverlayElemwise (resource : List Json) (j : Nat) (overlayElement : Json)
    (path : String) : Except EvalErr (List Patch) :=
  match resource with
  | [] => .ok []
  | resourceElement :: rest => do
    let patches ← applyOverlay resourceElement overlayElement (path ++ toString j ++ "/")
    let more ← applyOverlayElemwise rest (j + 1) overlayElement path
    .ok (patches ++ more)
termination_by (sizeOf overlayElement, 2, sizeOf resource)
end

/-- Source `mutateResourceWithOverlay` (part_003 lines 38-41): overlaying
starts from the root path. -/
def mutateResourceWithOverlay (resource pattern : Json) : Except EvalErr (List Patch) :=
  applyOverlay resource pattern "/"

/-- Source `ProcessOverlay` (part_003 lines 19-35) on an already-decoded
resource tree (the Go unmarshal of the raw bytes always succeeds on the
documents considered). -/
def ProcessOverlay (overlay resource : Json) : Except EvalErr (List Patch) :=
  mutateResourceWithOverlay resource overlay

/- ---------------------------------------------------------------------
Resource descriptor matcher (src/unnamed/part_001 lines 20-153).
--------------------------------------------------------------------- -/

/-- Group, version and kind of an admission request. -/
structure GroupVersionKind where
  group : String
  version : String
  kind : String

/-- One `matchExpressions` requirement of a label selector. -/
structure LabelSelectorRequirement where
  key : String
  op : String
  values : List String

/-- Kubernetes label selector: exact labels plus expression requirements. -/
structure LabelSelector where
  matchLabels : List (String × String)
  matchExpressions : List LabelSelectorRequirement

/-- Rule resource filter: mandatory kinds, optional name glob, namespace
and label selector (`nil` pointers become `none`). -/
structure ResourceDescription where
  Kinds : List String
  Name : Option String
  Namespace : Option String
  Selector : Option LabelSelector

/-- Source `parseMetadataFromObject` (part_001 lines 86-94): the
`metadata` field when it is an object, `nil` otherwise. -/
def parseMetadataFromObject (raw : Json) : Option Fields :=
  match raw with
  | .obj objectJSON =>
    match lookupField objectJSON "metadata" with
    | some (.obj meta) => some meta
    | _ => none
  | _ => none

/-- Source `ParseNameFromObject` (part_001 lines 117-133):
`metadata.name` when it is a string, the empty string otherwise. -/
def ParseNameFromObject (raw : Json) : String :=
  match parseMetadataFromObject raw with
  | some metaMap =>
    match lookupField metaMap "name" with
    | some (.str name) => name
    | _ => ""
  | none => ""

/-- Source `ParseNamespaceFromObject` (part_001 lines 136-153):
`metadata.namespace` when it is a string, the empty string otherwise. -/
def ParseNamespaceFromObject (raw : Json) : String :=
  match parseMetadataFromObject raw with
  | some metaMap =>
    match lookupField metaMap "namespace" with
    | some (.str name) => name
    | _ => ""
  | none => ""

/-- Label-value loop of `parseLabelsFromMetadata`: the `value.(string)`
assertion panics on a non-string label value. -/
def labelStrings : Fields → Except EvalErr (List (String × String))
  | [] => .ok []
  | (k, .str v) :: rest => do
    let more ← labelStrings rest
    .ok ((k, v) :: more)
  | (_, _) :: _ => .error (.panic "interface conversion: label value is not a string")

/-- Source `parseLabelsFromMetadata` (part_001 lines 104-114): the label
map of the metadata, or the empty set when `labels` is missing or not an
object (Go returns a nil `labels.Set`, which no key is in). -/
def parseLabelsFromMetadata (meta : Fields) : Except EvalErr (List (String × String)) :=
  match lookupField meta "labels" with
  | some (.obj interfaceMap) => labelStrings interfaceMap
  | _ => .ok []

/-- Label lookup in a parsed label set. -/
def lookupLabel : List (String × String) → String → Option String
  | [], _ => none
  | (k, v) :: rest, key => if k == key then some v else lookupLabel rest key

/-- Modelled from the spec: `metav1.LabelSelectorAsSelector` is library
code; it rejects a requirement whose operator is unknown, an `In` or
`NotIn` without values, or an `Exists` or `DoesNotExist` with values
(label-format validation of keys is not modelled). -/
def labelSelectorValid (sel : LabelSelector) : Bool :=
  sel.matchExpressions.all fun r =>
    ((r.op == "In" || r.op == "NotIn") && !r.values.isEmpty)
    || ((r.op == "Exists" || r.op == "DoesNotExist") && r.values.isEmpty)

/-- Modelled from the spec: `selector.Matches` over a label set.
`matchLabels` entries require equality; `In` requires a present value in
the list, `NotIn` is satisfied by an absent key or an absent value,
`Exists` and `DoesNotExist` test presence. -/
def selectorMatches (sel : LabelSelector) (ls : List (String × String)) : Bool :=
  sel.matchLabels.all (fun kv => lookupLabel ls kv.1 == some kv.2)
  && sel.matchExpressions.all fun r =>
    if r.op == "In" then
      match lookupLabel ls r.key with
      | some v => r.values.contains v
      | none => false
    else if r.op == "NotIn" then
      match lookupLabel ls r.key with
      | some v => !r.values.contains v
      | none => true
    else if r.op == "Exists" then (lookupLabel ls r.key).isSome
    else (lookupLabel ls r.key).isNone

/-- Selector step of `ResourceMeetsDescription`: returns `true` when the
check makes the function return `false`.  Go rejects on an invalid
selector, and compares labels only when the metadata is non-nil; the
match block rejects when the selector does not match (`blockWhen = false`),
the exclude block when it does (`blockWhen = true`). -/
def selectorBlocks (selOpt : Option LabelSelector) (meta : Option Fields)
    (blockWhen : Bool) : Except EvalErr Bool :=
  match selOpt with
  | none => .ok false
  | some sel =>
    if !labelSelectorValid sel then .ok true
    else
      match meta with
      | none => .ok false
      | some m => do
        let labelMap ← parseLabelsFromMetadata m
        .ok (selectorMatches sel labelMap == blockWhen)

/-- Source `ResourceMeetsDescription` (part_001 lines 20-84).  The raw
resource bytes are `none` for a nil slice; every check between kind and
the final `true` is skipped in that case. -/
def ResourceMeetsDescription (resourceRaw : Option Json)
    (matchesD exclude : ResourceDescription) (gvk : GroupVersionKind) :
    Except EvalErr Bool :=
  if !findKind matchesD.Kinds gvk.kind then .ok false
  else
    match resourceRaw with
    | none => .ok true
    | some raw =>
      let meta := parseMetadataFromObject raw
      let name := ParseNameFromObject raw
      let nspace := ParseNamespaceFromObject raw
      if (match matchesD.Name with
          | some p => !wildcardMatch p name
          | none => false) then .ok false
      else if (match exclude.Name with
          | some p => wildcardMatch p name
          | none => false) then .ok false
      else if (match matchesD.Namespace with
          | some ns => ns != nspace
          | none => false) then .ok false
      else if (match exclude.Namespace with
          | some ns => ns == nspace
          | none => false) then .ok false
      else do
        let blocked ← selectorBlocks matchesD.Selector meta false
        if blocked then .ok false
        else do
          let blocked2 ← selectorBlocks exclude.Selector meta true
          if blocked2 then .ok false
          else .ok true

/- ---------------------------------------------------------------------
Reference resolver (src/unnamed/part_004 lines 183-291).
--------------------------------------------------------------------- -/

/-- Go interface value that is either a JSON tree or an `error` object
(`actualizePattern` returns the resolution error in its value slot). -/
inductive GoVal where
  | json (j : Json)
  | errVal (msg : String)
deriving BEq

/-- Modelled from the spec: `strings.Trim` is library code; remove every
leading and trailing character that is in the cutset. -/
def trimCharSet (s : String) (cutset : List Char) : String :=
  String.mk
    (((s.toList.dropWhile (fun c => cutset.contains c)).reverse.dropWhile
      (fun c => cutset.contains c)).reverse)

/-- Modelled from the spec: `filepath.Join` for the slash-separated
reference paths of section 4.3; cleaning is limited to collapsing empty
segments (`..` segments are unused by the engine). -/
def filepathJoinModel (a b : String) : String :=
  let segs := (splitOnSlash (a ++ "/" ++ b)).filter (fun seg => seg ≠ "")
  "/" ++ String.intercalate "/" segs

/-- Source `FormAbsolutePath` (part_004 lines 229-235). -/
def FormAbsolutePath (referencePath absolutePath : String) : String :=
  if strStartsWith referencePath "/" then referencePath
  else filepathJoinModel absolutePath referencePath

/-- Source `valFromReferenceToString` (part_004 lines 214-226).  Go formats
`int` with `%d` and `float64` with `%f`; the integer model prints the
integer either way. -/
def valFromReferenceToString (value : Json) (operator : String) : Except EvalErr String :=
  match value with
  | .str typed => .ok typed
  | .num n => .ok (toString n)
  | _ => .error (.goErr ("Incorrect expression. Operator " ++ operator
      ++ " does not match with value"))

/-- Reversed path the source builds for the not-found message of
`getValueFromPattern` (part_004 lines 282-290): each segment is prepended,
so the segments come out in reverse order. -/
def reversedPathOf (keys : List String) : String :=
  keys.foldl (fun path elem => "/" ++ elem ++ path) ""

/-- Source `getValueFromPattern` (part_004 lines 246-291), iterating the
pattern fields in document order.  The outer `Except` is the panic layer
(Go indexes `keys[currentKeyIndex]` unchecked); the inner one is the
returned `error`.  In the array case Go returns from the first loop
iteration, so only element 0 is ever examined. -/
def getValueFromPattern (patternMap : Fields) (keys : List String)
    (currentKeyIndex : Nat) : Except EvalErr (Except String Json) :=
  match patternMap with
  | [] => .ok (.error ("No value found for specified reference: " ++ reversedPathOf keys))
  | (key, pattern) :: rest =>
    match keys.getLast? with
    | none => .error (.panic "index out of range")
    | some lastKey =>
      let rawKey := getRawKeyIfWrappedWithAttributes key
      if rawKey == lastKey && currentKeyIndex == keys.length - 1 then .ok (.ok pattern)
      else
        match keys.get? currentKeyIndex with
        | none => .error (.panic "index out of range")
        | some curKey =>
          if rawKey != curKey && currentKeyIndex != keys.length - 1 then
            getValueFromPattern rest keys currentKeyIndex
          else
            match pattern with
            | .arr typedPattern =>
              if curKey == rawKey then
                match typedPattern with
                | [] => .ok (.error "Reference to non-existent place in the document")
                | value :: _ =>
                  match value with
                  | .obj resourceMap =>
                    match keys.get? (currentKeyIndex + 1) with
                    | none => .error (.panic "index out of range")
                    | some nextKey =>
                      if nextKey == "0" then
                        getValueFromPattern resourceMap keys (currentKeyIndex + 2)
                      else .ok (.error "Reference to non-existent place in the document")
                  | _ => .ok (.error "Pattern and resource have different structures")
              else .ok (.error "Reference to non-existent place in the document")
            | .obj typedPattern =>
              if curKey == rawKey then
                getValueFromPattern typedPattern keys (currentKeyIndex + 1)
              else .ok (.error "Reference to non-existent place in the document")
            | _ => getValueFromPattern rest keys currentKeyIndex
termination_by sizeOf patternMap
decreasing_by
  all_goals simp_wf
  all_goals simp [Prod.mk.sizeOf_spec] at *
  all_goals omega

/-- Source `getValueFromReference` (part_004 lines 238-244): assert the
original pattern is a map, drop the leading slash, split the path. -/
def getValueFromReference (origPattern : Json) (reference : String) :
    Except EvalErr (Except String Json) :=
  match origPattern with
  | .obj originalPatternMap =>
    getValueFromPattern originalPatternMap (splitOnSlash (strDrop reference 1)) 0
  | _ => .error (.panic "interface conversion: interface is not a map")

/-- Source `actualizePattern` (part_004 lines 183-211), returning the Go
pair `(interface value, error)`.  On a resolution failure the source runs
`return err, nil`, so the error object lands in the value slot and the
error slot is nil. -/
def actualizePattern (origPattern : Json) (referencePattern absolutePath : String) :
    Except EvalErr (GoVal × Option String) :=
  let referencePattern := trimCharSet referencePattern ['$', '(', ')']
  let operator := getOperatorFromStringPattern referencePattern
  let referencePattern := strDrop referencePattern operator.length
  if referencePattern.length == 0 then
    .ok (.json .null, some "Expected path. Found empty reference")
  else
    let actualPath := FormAbsolutePath referencePattern absolutePath
    do
      let res ← getValueFromReference origPattern actualPath
      match res with
      | .error e => .ok (.errVal e, none)
      | .ok valFromReference =>
        if operator == "" then .ok (.json valFromReference, none)
        else
          match valFromReferenceToString valFromReference operator with
          | .error (.goErr msg) => .ok (.json (.str ""), some msg)
          | .error e => .error e
          | .ok foundValue => .ok (.json (.str (operator ++ foundValue)), none)

/- ---------------------------------------------------------------------
Pattern validator (src/unnamed/part_004 lines 83-181 and 293-300).
--------------------------------------------------------------------- -/

/-- Go comparison `patternElement == "*"`: an interface equals the string
constant exactly when it holds a string of that value. -/
def isStarPattern : Json → Bool
  | .str p => p == "*"
  | _ => false

/-- Go comparison with `nil`: the nil interface is the unmarshalled JSON
null (and the value a missing map key reads as). -/
def isNilValue : Json → Bool
  | .null => true
  | _ => false

/-- Go passes the resolved reference value straight to
`ValidateValueWithPattern`; an error object in the pattern slot hits its
unsupported-type default and fails to match. -/
def validateValueWithPatternGoVal (value : Json) (pattern : GoVal) : Bool :=
  match pattern with
  | .json j => ValidateValueWithPattern value j
  | .errVal _ => false

/-- Rendering of a pattern element inside failure messages (Go formats it
with `%v`). -/
def goValRender : GoVal → String
  | .json j => jsonSerialize j
  | .errVal m => m

mutual
/-- Source `validateResourceElement` (part_004 lines 92-130): dispatch on
the pattern element type; scalar string patterns may be references and are
then resolved against the original pattern tree before evaluation. -/
def validateResourceElement (resourceElement patternElement originPattern : Json)
    (path : String) : Except EvalErr Unit :=
  match patternElement with
  | .obj typedPatternElement =>
    match resourceElement with
    | .obj typedResourceElement =>
      validateMap typedResourceElement typedPatternElement originPattern path
    | _ => .error (.goErr ("Pattern and resource have different structures. Path: " ++ path))
  | .arr typedPatternElement =>
    match resourceElement with
    | .arr typedResourceElement =>
      validateArray typedResourceElement typedPatternElement originPattern path
    | _ => .error (.goErr ("Pattern and resource have different structures. Path: " ++ path))
  | .str s => do
    let patternNew : GoVal ←
      if isStringIsReference s then do
        let res ← actualizePattern originPattern s path
        match res with
        | (_, some e) => Except.error (.goErr e)
        | (p, none) => Except.ok p
      else Except.ok (.json (.str s))
    if validateValueWithPatternGoVal resourceElement patternNew then .ok ()
    else
      .error (.goErr ("Failed to validate value " ++ jsonSerialize resourceElement
        ++ " with pattern " ++ goValRender patternNew ++ ". Path: " ++ path))
  | .num _ | .bool _ | .null =>
    if ValidateValueWithPattern resourceElement patternElement then .ok ()
    else
      .error (.goErr ("Failed to validate value " ++ jsonSerialize resourceElement
        ++ " with pattern " ++ jsonSerialize patternElement ++ ". Path: " ++ path))
termination_by (sizeOf patternElement, 2, 0)

/-- Source `validateMap` (part_004 lines 134-153): every pattern key is
anchor-stripped and validated as a plain key; `*` asserts presence (a
missing key yields the nil interface, modelled as `Json.null`; the Go
interface comparisons with `"*"` and `nil` are `isStarPattern` and
`isNilValue`). -/
def validateMap (resourceMap patternMap : Fields) (origPattern : Json) (path : String) :
    Except EvalErr Unit :=
  match patternMap with
  | [] => .ok ()
  | (key0, patternElement) :: rest =>
    let key := removeAnchor key0
    let resVal := (lookupField resourceMap key).getD Json.null
    if isStarPattern patternElement && !isNilValue resVal then
      validateMap resourceMap rest origPattern path
    else if isStarPattern patternElement && isNilValue resVal then
      .error (.goErr ("Field " ++ key ++ " is not present"))
    else do
      validateResourceElement resVal patternElement origPattern (path ++ key ++ "/")
      validateMap resourceMap rest origPattern path
termination_by (sizeOf patternMap, 0, 0)

/-- Source `validateArray` (part_004 lines 155-181): an empty pattern
array errors; a leading map element enters array-of-maps mode; otherwise
elements are validated index-wise. -/
def validateArray (resourceArray patternArray : List Json) (originPattern : Json)
    (path : String) : Except EvalErr Unit :=
  match patternArray with
  | [] => .error (.goErr "Pattern Array empty")
  | (.obj typedPatternElement) :: _ =>
    validateArrayOfMaps resourceArray typedPatternElement originPattern path
  | p0 :: ps => validateArrayIdx resourceArray (p0 :: ps) 0 originPattern path
termination_by (sizeOf patternArray, 3, 0)

/-- Index-wise loop of `validateArray` (part_004 lines 170-177): Go
accesses `resourceArray[i]` unchecked, panicking past its end. -/
def validateArrayIdx (resourceArray patternArray : List Json) (i : Nat)
    (originPattern : Json) (path : String) : Except EvalErr Unit :=
  match patternArray with
  | [] => .ok ()
  | patternElement :: rest =>
    match resourceArray.get? i with
    | none => .error (.panic "index out of range")
    | some relem => do
      validateResourceElement relem patternElement originPattern (path ++ toString i ++ "/")
      validateArrayIdx resourceArray rest (i + 1) originPattern path
termination_by (sizeOf patternArray, 2, 0)

/-- Source `validateArrayOfMaps` (part_004 lines 295-300): pick the first
anchor of the pattern map and hand off to its handler. -/
def validateArrayOfMaps (resourceMapArray : List Json) (patternMap : Fields)
    (originPattern : Json) (path : String) : Except EvalErr Unit :=
  match getAnchorFromMap patternMap with
  | some (anchor, _) => anchorHandlerHandle anchor resourceMapArray patternMap originPattern path
  | none => anchorHandlerHandle "" resourceMapArray patternMap originPattern path
termination_by (sizeOf patternMap, 2, 0)

/-- Modelled from the spec: `CreateAnchorHandler` and the handler `Handle`
methods are not under src/, only `validateArrayOfMaps` and
`skipArrayObject` are.  Spec section 4.4, array-of-maps mode: elements
whose condition anchors fail are skipped, the rest are validated against
the pattern; an existence anchor requires at least one surviving element
to validate. -/
def anchorHandlerHandle (anchor : String) (resourceMapArray : List Json)
    (patternMap : Fields) (originPattern : Json) (path : String) : Except EvalErr Unit :=
  if isExistanceAnchor anchor then
    existenceArrayHandle resourceMapArray 0 patternMap originPattern path
  else defaultArrayHandle resourceMapArray 0 patternMap originPattern path
termination_by (sizeOf patternMap, 1, 0)

/-- Modelled from the spec: default array-of-maps handler (spec section
4.4); anchored-out elements are skipped, the others must validate. -/
def defaultArrayHandle (resourceMapArray : List Json) (i : Nat) (patternMap : Fields)
    (originPattern : Json) (path : String) : Except EvalErr Unit :=
  match resourceMapArray with
  | [] => .ok ()
  | relem :: rest =>
    match relem with
    | .obj robj =>
      if skipArrayObject robj (getAnchorsFromMap patternMap) then
        defaultArrayHandle rest (i + 1) patternMap originPattern path
      else do
        validateMap robj patternMap originPattern (path ++ toString i ++ "/")
        defaultArrayHandle rest (i + 1) patternMap originPattern path
    | _ => .error (.goErr ("Pattern and resource have different structures. Path: " ++ path))
termination_by (sizeOf patternMap, 0, sizeOf resourceMapArray)

/-- Modelled from the spec: existence-anchor handler (spec section 4.4);
at least one non-skipped element must validate against the pattern. -/
def existenceArrayHandle (resourceMapArray : List Json) (i : Nat) (patternMap : Fields)
    (originPattern : Json) (path : String) : Except EvalErr Unit :=
  match resourceMapArray with
  | [] => .error (.goErr ("Existence anchor validation failed at path " ++ path))
  | relem :: rest =>
    match relem with
    | .obj robj =>
      if skipArrayObject robj (getAnchorsFromMap patternMap) then
        existenceArrayHandle rest (i + 1) patternMap originPattern path
      else
        match validateMap robj patternMap originPattern (path ++ toString i ++ "/") with
        | .ok _ => .ok ()
        | .error _ => existenceArrayHandle rest (i + 1) patternMap originPattern path
    | _ => .error (.goErr ("Pattern and resource have different structures. Path: " ++ path))
termination_by (sizeOf patternMap, 0, sizeOf resourceMapArray)
end

/-- Source `validateResourceWithPattern` (part_004 lines 85-87):
element-by-element validation starts at the root path, with the pattern
itself as the reference origin. -/
def validateResourceWithPattern (resource pattern : Json) : Except EvalErr Unit :=
  validateResourceElement resource pattern pattern "/"

/- ---------------------------------------------------------------------
JSON-Patch application and the Mutate rule loop
(src/pkg/engine/mutation.go).
--------------------------------------------------------------------- -/

/-- JSON-Pointer path to segments: the root path has none, otherwise drop
the text before the first slash (token escapes are unused by the engine
paths considered). -/
def pointerSegs (path : String) : List String :=
  if path == "/" then [] else (splitOnSlash path).drop 1

/-- Replace the value of an existing key, or report that it was absent. -/
def setExistingField : Fields → String → Json → Option Fields
  | [], _, _ => none
  | (k, v) :: rest, key, value =>
    if k == key then some ((k, value) :: rest)
    else (setExistingField rest key value).map (fun r => (k, v) :: r)

/-- Set a key: replace it in place when present, append it otherwise. -/
def setField (kvs : Fields) (key : String) (value : Json) : Fields :=
  match setExistingField kvs key value with
  | some r => r
  | none => kvs ++ [(key, value)]

/-- Remove the first occurrence of a key, or report that it was absent. -/
def eraseField : Fields → String → Option Fields
  | [], _ => none
  | (k, v) :: rest, key =>
    if k == key then some rest
    else (eraseField rest key).map (fun r => (k, v) :: r)

/-- Recursive worker of `applyPatchOp`: one RFC-6902 operation of the
`jsonpatch.Patch.Apply` library call.  `add` on an object upserts the key
and on an array inserts at the index (or appends at `-`); `replace` and
`remove` require the target to exist; `none` is the library error. -/
def applyPatchOpAt (doc : Json) (segs : List String) (op : String) (value : Json) :
    Option Json :=
  match segs with
  | [] =>
    if op == "add" || op == "replace" then some value
    else none
  | [seg] =>
    match doc with
    | .obj kvs =>
      if op == "add" then some (.obj (setField kvs seg value))
      else if op == "replace" then (setExistingField kvs seg value).map .obj
      else if op == "remove" then (eraseField kvs seg).map .obj
      else none
    | .arr xs =>
      if op == "add" then
        if seg == "-" then some (.arr (xs ++ [value]))
        else
          match parseNumber seg with
          | some n =>
            if n.toNat ≤ xs.length ∧ 0 ≤ n then
              some (.arr (xs.take n.toNat ++ value :: xs.drop n.toNat))
            else none
          | none => none
      else
        match parseNumber seg with
        | some n =>
          if n.toNat < xs.length ∧ 0 ≤ n then
            if op == "replace" then some (.arr (xs.set n.toNat value))
            else if op == "remove" then some (.arr (xs.take n.toNat ++ xs.drop (n.toNat + 1)))
            else none
          else none
        | none => none
    | _ => none
  | seg :: rest =>
    match doc with
    | .obj kvs =>
      match lookupField kvs seg with
      | some child =>
        (applyPatchOpAt child rest op value).map (fun c => .obj (setField kvs seg c))
      | none => none
    | .arr xs =>
      match parseNumber seg with
      | some n =>
        match xs.get? n.toNat with
        | some child =>
          if 0 ≤ n then
            (applyPatchOpAt child rest op value).map (fun c => .arr (xs.set n.toNat c))
          else none
        | none => none
      | none => none
    | _ => none

/-- Modelled from the spec: application of one decoded patch operation. -/
def applyPatchOp (doc : Json) (p : Patch) : Option Json :=
  applyPatchOpAt doc (pointerSegs p.path) p.op p.value

/-- Sequential application of the decoded operations. -/
def applyAllOps (doc : Json) : List Patch → Option Json
  | [] => some doc
  | p :: rest =>
    match applyPatchOp doc p with
    | some doc2 => applyAllOps doc2 rest
    | none => none

/-- Modelled from the spec: `ApplyPatches` and `JoinPatches` are not under
src/, only their caller is.  The joined patch list is decoded and applied
to the resource; on any failure (including the empty join, which does not
decode) the original resource is returned together with the error flag. -/
def ApplyPatches (resource : Json) (patches : List Patch) : Json × Bool :=
  match patches with
  | [] => (resource, true)
  | _ =>
    match applyAllOps resource patches with
    | some doc => (doc, false)
    | none => (resource, true)

/-- Mutation body of a rule: an optional overlay and explicit patches. -/
structure Mutation where
  overlay : Option Json
  patches : List Patch

/-- One policy rule as the mutation engine sees it. -/
structure Rule where
  name : String
  matchResources : ResourceDescription
  excludeResources : ResourceDescription
  mutation : Option Mutation

/-- A policy: its name and ordered rules. -/
structure Policy where
  name : String
  rules : List Rule

/-- Modelled from the spec: `ProcessPatches` is not under src/.  The
explicit rule patches are applied in order to the working document; the
ones that apply are returned, the failures become error strings. -/
def processPatchesGo (doc : Json) : List Patch → List Patch × List String
  | [] => ([], [])
  | p :: rest =>
    match applyPatchOp doc p with
    | some doc2 =>
      let (ps, es) := processPatchesGo doc2 rest
      (p :: ps, es)
    | none =>
      let (ps, es) := processPatchesGo doc rest
      (ps, "Failed to apply patch" :: es)

mutual
/-- Rule loop of source `Mutate` (mutation.go lines 11-73).  Rules without
a mutation body, rules whose description does not match, and overlays
yielding no patches `continue` without touching the working document;
otherwise the iteration ends by applying the patches of THIS rule to the
ORIGINAL raw resource (`ApplyPatches(rawResource, rulePatches)`), which
becomes the working document the next rule reads.  A Go panic anywhere
aborts the walk. -/
def mutateRules (rules : List Rule) (rawResource : Json) (gvk : GroupVersionKind)
    (allPatches : List Patch) (patchedDocument : Json) :
    Except EvalErr (List Patch × Json) :=
  match rules with
  | [] => .ok (allPatches, patchedDocument)
  | rule :: rest =>
    match rule.mutation with
    | none => mutateRules rest rawResource gvk allPatches patchedDocument
    | some mutation => do
      let ok ← ResourceMeetsDescription (some rawResource) rule.matchResources
        rule.excludeResources gvk
      if !ok then mutateRules rest rawResource gvk allPatches patchedDocument
      else
        match mutation.overlay with
        | some overlay =>
          match ProcessOverlay overlay patchedDocument with
          | .error (.panic m) => .error (.panic m)
          | .error (.goErr _) =>
            mutateRuleTail rest rawResource gvk allPatches patchedDocument mutation []
          | .ok rulePatches =>
            if rulePatches.isEmpty then
              mutateRules rest rawResource gvk allPatches patchedDocument
            else
              mutateRuleTail rest rawResource gvk (allPatches ++ rulePatches)
                patchedDocument mutation rulePatches
        | none => mutateRuleTail rest rawResource gvk allPatches patchedDocument mutation []
termination_by (rules.length, 0)

/-- Tail of one `Mutate` iteration: the explicit-patches branch, then
`patchedDocument, err = ApplyPatches(rawResource, rulePatches)` (the error
is only logged). -/
def mutateRuleTail (rest : List Rule) (rawResource : Json) (gvk : GroupVersionKind)
    (allPatches : List Patch) (patchedDocument : Json) (mutation : Mutation)
    (rulePatches : List Patch) : Except EvalErr (List Patch × Json) :=
  let (rulePatches2, allPatches2) :=
    if mutation.patches.isEmpty then (rulePatches, allPatches)
    else
      let (ps, errs) := processPatchesGo patchedDocument mutation.patches
      if errs.isEmpty then (ps, allPatches ++ ps) else (ps, allPatches)
  let (newDocument, _) := ApplyPatches rawResource rulePatches2
  mutateRules rest rawResource gvk allPatches2 newDocument
termination_by (rest.length, 1)
end

/-- Source `Mutate` (mutation.go lines 11-73) restricted to its patch and
document outputs (the per-rule infos only carry messages). -/
def Mutate (policy : Policy) (rawResource : Json) (gvk : GroupVersionKind) :
    Except EvalErr (List Patch × Json) :=
  mutateRules policy.rules rawResource gvk [] rawResource

/- ---------------------------------------------------------------------
Helper lemmas.
--------------------------------------------------------------------- -/

/-- The linear scan `findKind` decides list membership. -/
theorem findKind_eq_mem (l : List String) (k : String) :
    findKind l k = decide (k ∈ l) := by
  induction l with
  | nil => simp [findKind]
  | cons a rest ih =>
    simp only [findKind, ih, List.mem_cons]
    by_cases h : a = k
    · simp [h]
    · have hbeq : (a == k) = false := by simpa using h
      simp only [hbeq, if_false]
      have : ¬k = a := fun hk => h hk.symm
      simp [this]

/-- A list with first element `a` and last element `z`, of length at least
two, is `a :: middle ++ [z]`, with the middle being what one step of
anchor stripping returns. -/
theorem cons_middle_concat (l : List Char) (a z : Char) (h1 : l.head? = some a)
    (h2 : l.getLast? = some z) (h3 : 2 ≤ l.length) :
    l = a :: (l.drop 1).dropLast ++ [z] := by
  rcases l.eq_nil_or_concat with rfl | ⟨L, b, rfl⟩
  · simp at h2
  · have hb : b = z := by simpa [List.getLast?_concat] using h2
    subst hb
    cases L with
    | nil => simp at h3
    | cons c M =>
      have hc : c = a := by simpa using h1
      subst hc
      simp [List.dropLast_concat]

/-- Unpack `isConditionAnchorChars`. -/
theorem isConditionAnchorChars_iff (l : List Char) :
    isConditionAnchorChars l = true ↔
      2 ≤ l.length ∧ l.head? = some '(' ∧ l.getLast? = some ')' := by
  simp [isConditionAnchorChars, and_assoc]

/-- Unpack `isExistanceAnchorChars`. -/
theorem isExistanceAnchorChars_iff (l : List Char) :
    isExistanceAnchorChars l = true ↔
      3 ≤ l.length ∧ l.take 2 = ['^', '('] ∧ l.getLast? = some ')' := by
  simp [isExistanceAnchorChars, and_assoc]

/-- Unpack `isAddingAnchorChars`. -/
theorem isAddingAnchorChars_iff (l : List Char) :
    isAddingAnchorChars l = true ↔
      3 ≤ l.length ∧ l.take 2 = ['+', '('] ∧ l.getLast? = some ')' := by
  simp [isAddingAnchorChars, and_assoc]

/-- A two-element take pins down the first two elements. -/
theorem take_two_eq (l : List Char) (a b : Char) (h : l.take 2 = [a, b]) :
    ∃ u, l = a :: b :: u := by
  cases l with
  | nil => simp at h
  | cons c t =>
    cases t with
    | nil => simp at h
    | cons d u =>
      simp only [List.take_succ_cons, List.take_zero, List.cons.injEq, and_true] at h
      exact ⟨u, by rw [h.1, h.2]⟩

/-- Shape of a string accepted by a two-character anchor test: it is the
two-character prefix, then what `removeAnchor` keeps, then `)`. -/
theorem two_char_anchor_shape (l : List Char) (a : Char)
    (h3 : 3 ≤ l.length) (ht : l.take 2 = [a, '(']) (hz : l.getLast? = some ')') :
    l = a :: '(' :: (l.drop 2).dropLast ++ [')'] := by
  obtain ⟨u, rfl⟩ := take_two_eq l a '(' ht
  have hu : u ≠ [] := by
    intro h
    subst h
    simp at h3
  rcases u.eq_nil_or_concat with rfl | ⟨M, y, hMy⟩
  · exact absurd rfl hu
  · rw [List.concat_eq_append] at hMy
    subst hMy
    have hlast : (a :: '(' :: (M ++ [y])).getLast? = some y := by
      have hshape : a :: '(' :: (M ++ [y]) = (a :: '(' :: M) ++ [y] := by simp
      rw [hshape, List.getLast?_concat]
    rw [hlast] at hz
    obtain rfl : y = ')' := by simpa using hz
    simp [List.dropLast_concat]

/-- Claim C9: the three anchor classifiers are mutually exclusive, and
`removeAnchor` strips exactly the recognized decoration when a classifier
holds and returns the key unchanged when none does. -/
theorem anchor_classifiers_exclusive_remove (s : String) :
    (¬(isConditionAnchor s = true ∧ isExistanceAnchor s = true))
    ∧ (¬(isConditionAnchor s = true ∧ isAddingAnchor s = true))
    ∧ (¬(isExistanceAnchor s = true ∧ isAddingAnchor s = true))
    ∧ (isConditionAnchor s = true → s.toList = '(' :: (removeAnchor s).toList ++ [')'])
    ∧ (isExistanceAnchor s = true → s.toList = '^' :: '(' :: (removeAnchor s).toList ++ [')'])
    ∧ (isAddingAnchor s = true → s.toList = '+' :: '(' :: (removeAnchor s).toList ++ [')'])
    ∧ (isConditionAnchor s = false → isExistanceAnchor s = false → isAddingAnchor s = false →
        removeAnchor s = s) := by
  obtain ⟨l⟩ := s
  have hCond : isConditionAnchor ⟨l⟩ = isConditionAnchorChars l := rfl
  have hEx : isExistanceAnchor ⟨l⟩ = isExistanceAnchorChars l := rfl
  have hAdd : isAddingAnchor ⟨l⟩ = isAddingAnchorChars l := rfl
  have hToList : (⟨l⟩ : String).toList = l := rfl
  have hRem : (removeAnchor ⟨l⟩).toList = removeAnchorChars l := rfl
  rw [hCond, hEx, hAdd, hToList, hRem]
  refine ⟨?_, ?_, ?_, ?_, ?_, ?_, ?_⟩
  · rintro ⟨hc, he⟩
    rw [isConditionAnchorChars_iff] at hc
    rw [isExistanceAnchorChars_iff] at he
    obtain ⟨u, hu⟩ := take_two_eq _ _ _ he.2.1
    rw [hu] at hc
    simp at hc
  · rintro ⟨hc, ha⟩
    rw [isConditionAnchorChars_iff] at hc
    rw [isAddingAnchorChars_iff] at ha
    obtain ⟨u, hu⟩ := take_two_eq _ _ _ ha.2.1
    rw [hu] at hc
    simp at hc
  · rintro ⟨he, ha⟩
    rw [isExistanceAnchorChars_iff] at he
    rw [isAddingAnchorChars_iff] at ha
    obtain ⟨u, hu⟩ := take_two_eq _ _ _ he.2.1
    rw [hu] at ha
    simp at ha
  · intro hc
    have hc' := hc
    rw [isConditionAnchorChars_iff] at hc'
    rw [removeAnchorChars, if_pos hc]
    exact cons_middle_concat _ _ _ hc'.2.1 hc'.2.2 hc'.1
  · intro he
    have he' := he
    rw [isExistanceAnchorChars_iff] at he'
    have hcond : ¬(isConditionAnchorChars l = true) := by
      intro h
      rw [isConditionAnchorChars_iff] at h
      obtain ⟨u, hu⟩ := take_two_eq _ _ _ he'.2.1
      rw [hu] at h
      simp at h
    rw [removeAnchorChars, if_neg hcond, if_pos (by rw [he]; rfl)]
    exact two_char_anchor_shape _ _ he'.1 he'.2.1 he'.2.2
  · intro ha
    have ha' := ha
    rw [isAddingAnchorChars_iff] at ha'
    have hcond : ¬(isConditionAnchorChars l = true) := by
      intro h
      rw [isConditionAnchorChars_iff] at h
      obtain ⟨u, hu⟩ := take_two_eq _ _ _ ha'.2.1
      rw [hu] at h
      simp at h
    rw [removeAnchorChars, if_neg hcond, if_pos (by rw [ha]; simp)]
    exact two_char_anchor_shape _ _ ha'.1 ha'.2.1 ha'.2.2
  · intro hc he ha
    have hl : removeAnchorChars l = l := by
      rw [removeAnchorChars, if_neg (by simp [hc]), if_neg (by simp [he, ha])]
    show String.mk (removeAnchorChars l) = ⟨l⟩
    rw [hl]

/-- Witness for C9 at the concrete key `^(abc)`. -/
theorem anchor_classifiers_exclusive_remove_witness :
    isExistanceAnchor "^(abc)" = true ∧
      "^(abc)".toList = '^' :: '(' :: (removeAnchor "^(abc)").toList ++ [')'] := by
  refine ⟨by decide, ?_⟩
  exact (anchor_classifiers_exclusive_remove "^(abc)").2.2.2.2.1 (by decide)

/-- Claim C10: with a nil raw resource, `ResourceMeetsDescription` reduces
to kind membership in the match kinds; every name, namespace and selector
check of both blocks is skipped. -/
theorem resourceMeetsDescription_nil_resource (matchesD exclude : ResourceDescription)
    (gvk : GroupVersionKind) :
    ResourceMeetsDescription none matchesD exclude gvk =
      .ok (decide (gvk.kind ∈ matchesD.Kinds)) := by
  unfold ResourceMeetsDescription
  rw [findKind_eq_mem]
  by_cases h : gvk.kind ∈ matchesD.Kinds <;> simp [h]

/- ---------------------------------------------------------------------
Concrete refutations and code-bug evaluations.
--------------------------------------------------------------------- -/

/-- Counterexample to claim C2: pattern `(a): 2` against resource
`a: 1`.  The value at `a` does not satisfy the anchored subpattern, yet
`validateMap` reports the plain validation Failure, not a skip. -/
theorem validateMap_condition_anchor_failure_cex :
    validateMap [("a", Json.num 1)] [("(a)", Json.num 2)]
        (Json.obj [("(a)", Json.num 2)]) "/" =
      .error (.goErr "Failed to validate value 1 with pattern 2. Path: /a/")
    ∧ ValidateValueWithPattern (Json.num 1) (Json.num 2) = false := by
  constructor
  · simp [validateMap, validateResourceElement, removeAnchor, removeAnchorChars,
      isConditionAnchorChars, isExistanceAnchorChars, isAddingAnchorChars, lookupField,
      ValidateValueWithPattern, jsonSerialize]
    rfl
  · rfl

/-- Claim C3 failing input: resource `"x"` (a string), overlay
`\x7b a: 1 \x7d` (a map), mismatched types at the root.  The source
computes the replace patch, throws it away, and calls
`applyOverlayForSameTypes`, whose map branch panics on the
`resource.(map[string]interface\x7b\x7d)` type assertion instead of
returning the single replace patch. -/
theorem applyOverlay_type_mismatch_panics :
    applyOverlay (.str "x") (.obj [("a", Json.num 1)]) "/" =
      .error (.panic "interface conversion: interface is not a map") := by
  simp [applyOverlay, applyOverlayForSameTypes, typeTag, replaceSubtree, processSubtree,
    normalizePath, prepareJSONValue, hasOnlyAnchors, hasOnlyAnchorsFields, getAnchorsFromMap,
    isConditionAnchor, isConditionAnchorChars, isExistanceAnchor, isExistanceAnchorChars,
    jsonSerialize, renderFields, sortRendered, insertRendered, joinFields, escapeString,
    escapeChars]
  rfl

/-- Counterexample to claim C4: overlay map `(a): 2, b: 3` against
resource `a: 1`.  The value at `a` does not match the anchored
subpattern, yet the overlay still emits the patch for `b`: condition
anchors are skipped without evaluation at map level. -/
theorem applyOverlayToMap_condition_anchor_cex :
    applyOverlayToMap [("a", Json.num 1)] [("(a)", Json.num 2), ("b", Json.num 3)] "/" =
      .ok [⟨"add", "/b", Json.num 3⟩]
    ∧ ValidateValueWithPattern (Json.num 1) (Json.num 2) = false := by
  constructor
  · simp [applyOverlayToMap, applyOverlay, applyOverlayForSameTypes, isConditionAnchor,
      isConditionAnchorChars, isAddingAnchor, isAddingAnchorChars, removeAnchor,
      removeAnchorChars, isExistanceAnchorChars, lookupField, insertSubtree, processSubtree,
      normalizePath, prepareJSONValue, hasOnlyAnchors, jsonSerialize]
    rfl
  · rfl

/-- Claim C6 failing input: the reference `$(/metadata/labels)` against
the pattern `\x7b spec: 1 \x7d`.  Resolution fails, but `actualizePattern`
runs `return err, nil`: the error object comes back in the value slot with
a nil error, and its message carries the path segment-reversed
(`/labels/metadata`). -/
theorem actualizePattern_swapped_error_eval :
    actualizePattern (Json.obj [("spec", Json.num 1)]) "$(/metadata/labels)" "/" =
      .ok (.errVal "No value found for specified reference: /labels/metadata", none) := by
  simp [actualizePattern, trimCharSet, getOperatorFromStringPattern, FormAbsolutePath,
    getValueFromReference, getValueFromPattern, getRawKeyIfWrappedWithAttributes,
    getRawKeyIfWrappedWithAttributesChars, reversedPathOf]
  rfl

/-- Counterexample to claim C7: an empty overlay array against the
non-empty resource array `[1]`.  The claim allows an error only when both
arrays are empty; the source errors whenever the overlay array is empty. -/
theorem applyOverlayToArray_empty_overlay_cex :
    applyOverlayToArray [Json.num 1] [] "/a/" =
      .error (.goErr "Empty array detected in the overlay") := by
  simp [applyOverlayToArray]

/-- Counterexample to claim C8: the anchor-only overlay subtree
`\x7b (b): 1 \x7d` makes `prepareJSONValue` return the empty string, the
assembled patch fails to decode, and `processSubtree` returns an error --
the drop is not silent. -/
theorem processSubtree_anchor_only_error_cex :
    processSubtree (Json.obj [("(b)", Json.num 1)]) "/x/" "add" =
      .error (.goErr "Failed to make add patch from an overlay  for path /x") := by
  simp [processSubtree, prepareJSONValue, hasOnlyAnchors, getAnchorsFromMap,
    isConditionAnchor, isConditionAnchorChars, isExistanceAnchor, isExistanceAnchorChars,
    List.filter, normalizePath]
  rfl

/- ---------------------------------------------------------------------
Amended statements.
--------------------------------------------------------------------- -/

/-- The digit accumulator never shrinks. -/
theorem toDigitsCore_length_ge (b f n : Nat) (ds : List Char) :
    ds.length ≤ (Nat.toDigitsCore b f n ds).length := by
  induction f generalizing n ds with
  | zero => simp [Nat.toDigitsCore]
  | succ f ih =>
    simp only [Nat.toDigitsCore]
    split
    · simp
    · calc ds.length ≤ (Nat.digitChar (n % b) :: ds).length := by simp
        _ ≤ _ := ih _ _

/-- The digit list of a natural number is never empty. -/
theorem natToDigits_ne_nil (b n : Nat) : Nat.toDigits b n ≠ [] := by
  unfold Nat.toDigits
  simp only [Nat.toDigitsCore]
  split
  · simp
  · intro h
    have := toDigitsCore_length_ge b n (n / b) [Nat.digitChar (n % b)]
    rw [h] at this
    simp at this

/-- The decimal representation of a natural number is never empty. -/
theorem natRepr_ne_empty (n : Nat) : Nat.repr n ≠ "" := by
  intro h
  have hd := congrArg String.data h
  simp only [Nat.repr, List.asString] at hd
  exact natToDigits_ne_nil 10 n hd

/-- The decimal representation of an integer is never empty. -/
theorem intRepr_ne_empty (n : Int) : Int.repr n ≠ "" := by
  cases n with
  | ofNat m => exact natRepr_ne_empty m
  | negSucc m =>
    intro h
    have hd := congrArg String.data h
    simp only [Int.repr] at hd
    have : ("-" ++ Nat.repr (m + 1)).data = '-' :: (Nat.repr (m + 1)).data := rfl
    rw [this] at hd
    cases hd

/-- The serializer never produces the empty string. -/
theorem jsonSerialize_ne_empty (j : Json) : jsonSerialize j ≠ "" := by
  have hne : ∀ (c : Char) (x : String), (String.mk [c] ++ x) ≠ "" := by
    intro c x h
    have hd := congrArg String.data h
    have : (String.mk [c] ++ x).data = c :: x.data := rfl
    rw [this] at hd
    cases hd
  cases j with
  | null => simp [jsonSerialize]
  | bool b => cases b <;> simp [jsonSerialize]
  | num n =>
    have : jsonSerialize (Json.num n) = Int.repr n := rfl
    rw [this]
    exact intRepr_ne_empty n
  | str s =>
    have : jsonSerialize (Json.str s) = String.mk ['"'] ++ (escapeString s ++ "\"") := rfl
    rw [this]
    exact hne _ _
  | arr xs =>
    have : jsonSerialize (Json.arr xs) =
        String.mk ['['] ++ (joinElems (renderElems xs) ++ "]") := rfl
    rw [this]
    exact hne _ _
  | obj kvs =>
    have : jsonSerialize (Json.obj kvs) =
        String.mk ['\x7b'] ++ (joinFields (sortRendered (renderFields kvs)) ++ "\x7d") := rfl
    rw [this]
    exact hne _ _

/-- Amended claim C8: an anchor-only overlay subtree serializes to the
empty string and `processSubtree` then returns an error -- no patch is
emitted, but the drop is an error, not silent; a subtree with non-anchor
content is serialized whole, anchor keys included, into the single
emitted patch. -/
theorem processSubtree_characterization (overlay : Json) (path op : String) :
    (hasOnlyAnchors overlay = true →
      prepareJSONValue overlay = ""
      ∧ processSubtree overlay path op =
          .error (.goErr ("Failed to make " ++ op ++ " patch from an overlay "
            ++ prepareJSONValue overlay ++ " for path " ++ normalizePath path)))
    ∧ (hasOnlyAnchors overlay = false →
      prepareJSONValue overlay = jsonSerialize overlay
      ∧ processSubtree overlay path op = .ok ⟨op, normalizePath path, overlay⟩) := by
  constructor
  · intro h
    have hval : prepareJSONValue overlay = "" := by simp [prepareJSONValue, h]
    refine ⟨hval, ?_⟩
    simp [processSubtree, hval]
  · intro h
    have hval : prepareJSONValue overlay = jsonSerialize overlay := by
      simp [prepareJSONValue, h]
    refine ⟨hval, ?_⟩
    have hbeq : (jsonSerialize overlay == "") = false := by
      simpa using jsonSerialize_ne_empty overlay
    simp [processSubtree, hval, hbeq]

/-- Witness for C8 at the anchor-only subtree `\x7b (b): 1 \x7d` and at the
plain scalar `3`. -/
theorem processSubtree_characterization_witness :
    (prepareJSONValue (Json.obj [("(b)", Json.num 1)]) = ""
      ∧ processSubtree (Json.obj [("(b)", Json.num 1)]) "/x/" "add" =
          .error (.goErr ("Failed to make " ++ "add" ++ " patch from an overlay "
            ++ prepareJSONValue (Json.obj [("(b)", Json.num 1)]) ++ " for path "
            ++ normalizePath "/x/")))
    ∧ (prepareJSONValue (Json.num 3) = jsonSerialize (Json.num 3)
      ∧ processSubtree (Json.num 3) "/x/" "add" =
          .ok ⟨"add", normalizePath "/x/", Json.num 3⟩) := by
  constructor
  · exact (processSubtree_characterization (Json.obj [("(b)", Json.num 1)]) "/x/" "add").1
      (by simp [hasOnlyAnchors, getAnchorsFromMap, isConditionAnchor, isConditionAnchorChars,
        isExistanceAnchor, isExistanceAnchorChars, List.filter])
  · exact (processSubtree_characterization (Json.num 3) "/x/" "add").2
      (by simp [hasOnlyAnchors])

/-- Specification-side description of the append mode: one `add` per
overlay element at the indices past the end of the resource array. -/
def appendPatches (start : Nat) (path : String) : List Json → List Patch
  | [] => []
  | v :: vs =>
    ⟨"add", normalizePath (path ++ toString start ++ "/"), v⟩ :: appendPatches (start + 1) path vs

/-- The append loop emits exactly the appended-index `add` patches when
every element has insertable content. -/
theorem appendOverlayElems_eq (overlay : List Json) (lastElementIdx i : Nat) (path : String)
    (h : ∀ v ∈ overlay, hasOnlyAnchors v = false) :
    appendOverlayElems lastElementIdx overlay i path =
      .ok (appendPatches (lastElementIdx + i) path overlay) := by
  induction overlay generalizing i with
  | nil => simp [appendOverlayElems, appendPatches]
  | cons v vs ih =>
    have hv : hasOnlyAnchors v = false := h v (List.mem_cons_self v vs)
    have hval : prepareJSONValue v = jsonSerialize v := by simp [prepareJSONValue, hv]
    have hbeq : (jsonSerialize v == "") = false := by simpa using jsonSerialize_ne_empty v
    simp only [appendOverlayElems, insertSubtree, processSubtree, hval, hbeq,
      Bool.false_eq_true, if_false, ite_false, Bind.bind, Except.bind, appendPatches]
    rw [ih (i + 1) (fun w hw => h w (List.mem_cons_of_mem _ hw))]
    simp [appendPatches, Nat.add_assoc]

/-- Amended claim C7: `applyOverlayToArray` errors whenever the overlay
array is empty, regardless of the resource; when only the resource array
is empty it emits one single `add` carrying the entire overlay array at
the enclosing path; and when both are non-empty with first elements of the
same non-map type it appends each overlay element at the index
`len(resource) + i`. -/
theorem applyOverlayToArray_characterization :
    (∀ (resource : List Json) (path : String),
      applyOverlayToArray resource [] path =
        .error (.goErr "Empty array detected in the overlay"))
    ∧ (∀ (overlay : List Json) (path : String),
      overlay ≠ [] → hasOnlyAnchors (.arr overlay) = false →
      applyOverlayToArray [] overlay path =
        .ok [⟨"add", normalizePath path, .arr overlay⟩])
    ∧ (∀ (resource overlay : List Json) (path : String) (r0 o0 : Json)
        (rs os : List Json),
      resource = r0 :: rs → overlay = o0 :: os →
      typeTag r0 = typeTag o0 → (∀ f, o0 ≠ Json.obj f) →
      (∀ v ∈ overlay, hasOnlyAnchors v = false) →
      applyOverlayToArray resource overlay path =
        .ok (appendPatches resource.length path overlay)) := by
  refine ⟨?_, ?_, ?_⟩
  · intro resource path
    simp [applyOverlayToArray]
  · intro overlay path hne hanc
    obtain ⟨o0, os, rfl⟩ : ∃ o0 os, overlay = o0 :: os := by
      cases overlay with
      | nil => exact absurd rfl hne
      | cons a l => exact ⟨a, l, rfl⟩
    have hval : prepareJSONValue (.arr (o0 :: os)) = jsonSerialize (.arr (o0 :: os)) := by
      simp [prepareJSONValue, hanc]
    have hbeq : (jsonSerialize (Json.arr (o0 :: os)) == "") = false := by
      simpa using jsonSerialize_ne_empty (Json.arr (o0 :: os))
    simp only [applyOverlayToArray, insertSubtree, processSubtree, hval, hbeq,
      Bool.false_eq_true, if_false, ite_false, Bind.bind, Except.bind]
  · rintro resource overlay path r0 o0 rs os rfl rfl htype hnotmap hanc
    have htt : (typeTag r0 != typeTag o0) = false := by simp [htype]
    have happend := appendOverlayElems_eq (o0 :: os) (r0 :: rs).length 0 path hanc
    simp only [applyOverlayToArray, htt, Bool.false_eq_true, if_false, ite_false]
    cases o0 with
    | obj f => exact absurd rfl (hnotmap f)
    | null => simpa [applyOverlayToArrayOfSameTypes] using happend
    | bool b => simpa [applyOverlayToArrayOfSameTypes] using happend
    | num n => simpa [applyOverlayToArrayOfSameTypes] using happend
    | str s => simpa [applyOverlayToArrayOfSameTypes] using happend
    | arr xs => simpa [applyOverlayToArrayOfSameTypes] using happend

/-- Witness for C7 at small concrete arrays. -/
theorem applyOverlayToArray_characterization_witness :
    applyOverlayToArray [] [Json.num 7] "/a/" =
      .ok [⟨"add", normalizePath "/a/", .arr [Json.num 7]⟩]
    ∧ applyOverlayToArray [Json.num 1, Json.num 2] [Json.num 7] "/a/" =
      .ok (appendPatches 2 "/a/" [Json.num 7]) := by
  constructor
  · exact applyOverlayToArray_characterization.2.1 [Json.num 7] "/a/" (by simp)
      (by simp [hasOnlyAnchors, hasOnlyAnchorsElems])
  · exact applyOverlayToArray_characterization.2.2 [Json.num 1, Json.num 2] [Json.num 7]
      "/a/" (Json.num 1) (Json.num 7) [Json.num 2] [] rfl rfl rfl
      (fun f h => by cases h)
      (by intro v hv; simp at hv; subst hv; simp [hasOnlyAnchors])

/-- Wrapping a key in a condition anchor strips back to the key. -/
theorem removeAnchor_paren (k : String) : removeAnchor ("(" ++ k ++ ")") = k := by
  obtain ⟨l⟩ := k
  have hlist : ("(" ++ (⟨l⟩ : String) ++ ")").toList = ('(' :: l) ++ [')'] := by
    show (['('] ++ l) ++ [')'] = ('(' :: l) ++ [')']
    simp
  show String.mk (removeAnchorChars ("(" ++ (⟨l⟩ : String) ++ ")").toList) = ⟨l⟩
  rw [hlist]
  have hcond : isConditionAnchorChars (('(' :: l) ++ [')']) = true := by
    rw [isConditionAnchorChars_iff]
    refine ⟨by simp, by simp, ?_⟩
    rw [List.getLast?_concat]
  rw [removeAnchorChars, if_pos hcond]
  simp [List.dropLast_concat]

/-- Amended claim C2: at map level `validateMap` strips the condition
anchor and validates the subpattern exactly as if the key were plain, so
a condition-anchor miss is the same Failure a plain key produces -- never
a skip (elements are skipped only in array-of-maps mode, through
`skipArrayObject`). -/
theorem validateMap_anchored_key_as_plain (rm : Fields) (k : String) (pv : Json)
    (rest : Fields) (orig : Json) (path : String) (h : removeAnchor k = k) :
    validateMap rm (("(" ++ k ++ ")", pv) :: rest) orig path =
      validateMap rm ((k, pv) :: rest) orig path := by
  simp only [validateMap, removeAnchor_paren, h]

/-- Witness for C2 at the plain key `a`. -/
theorem validateMap_anchored_key_as_plain_witness :
    validateMap [("a", Json.num 5)] [("(" ++ "a" ++ ")", Json.num 5)] Json.null "/" =
      validateMap [("a", Json.num 5)] [("a", Json.num 5)] Json.null "/" := by
  exact validateMap_anchored_key_as_plain [("a", Json.num 5)] "a" (Json.num 5) [] Json.null
    "/" (by decide)

/-- Amended claim C4: condition anchors in an overlay are evaluated only in
array-of-maps mode; there, an overlay element whose anchors match no
resource element produces no patch operations (`applyOverlayWithAnchors`
skips every element `skipArrayObject` rejects). -/
theorem applyOverlayWithAnchors_all_skipped (resource : List Json) (i : Nat)
    (overlay : Json) (anchors : Fields) (path : String)
    (h : ∀ r ∈ resource, ∃ robj, r = Json.obj robj ∧ skipArrayObject robj anchors = true) :
    applyOverlayWithAnchors resource i overlay anchors path = .ok [] := by
  induction resource generalizing i with
  | nil => simp [applyOverlayWithAnchors]
  | cons r rest ih =>
    obtain ⟨robj, rfl, hskip⟩ := h r (List.mem_cons_self r rest)
    simp only [applyOverlayWithAnchors, hskip, Bool.not_true, Bool.false_eq_true, if_false,
      ite_false]
    exact ih (i + 1) (fun w hw => h w (List.mem_cons_of_mem _ hw))

/-- Witness for C4: one resource element failing the anchor `(a): 2`. -/
theorem applyOverlayWithAnchors_all_skipped_witness :
    applyOverlayWithAnchors [Json.obj [("a", Json.num 1)]] 0
      (Json.obj [("(a)", Json.num 2), ("b", Json.num 3)]) [("(a)", Json.num 2)] "/" =
      .ok [] := by
  exact applyOverlayWithAnchors_all_skipped [Json.obj [("a", Json.num 1)]] 0
    (Json.obj [("(a)", Json.num 2), ("b", Json.num 3)]) [("(a)", Json.num 2)] "/"
    (by
      intro r hr
      simp only [List.mem_singleton] at hr
      subst hr
      exact ⟨[("a", Json.num 1)], rfl, by decide⟩)

/- ---------------------------------------------------------------------
Claim C1: specification-side matcher and the characterization of the
implemented one.
--------------------------------------------------------------------- -/

/-- String-valued labels of a metadata map (the total counterpart of
`parseLabelsFromMetadata`, dropping non-string values instead of
panicking). -/
def stringLabelPairs : Fields → List (String × String)
  | [] => []
  | (k, .str v) :: rest => (k, v) :: stringLabelPairs rest
  | _ :: rest => stringLabelPairs rest

/-- Labels read from a metadata map. -/
def labelsOfMeta (meta : Fields) : List (String × String) :=
  match lookupField meta "labels" with
  | some (.obj kvs) => stringLabelPairs kvs
  | _ => []

/-- Every label value of the resource is a string, so no label parse
panics. -/
def labelsWellFormed (raw : Json) : Bool :=
  match parseMetadataFromObject raw with
  | some meta =>
    match lookupField meta "labels" with
    | some (.obj kvs) => kvs.all (fun kv => match kv.2 with | .str _ => true | _ => false)
    | _ => true
  | none => true

/-- Specification-side single-block matcher, following the words of claim
C1 (spec section 4.7): kind membership, then name, namespace and selector,
each absent or matching, namespace by glob like the name. -/
def describedBySpec (raw : Json) (d : ResourceDescription) (gvk : GroupVersionKind) : Bool :=
  d.Kinds.contains gvk.kind
  && (match d.Name with
      | some p => wildcardMatch p (ParseNameFromObject raw)
      | none => true)
  && (match d.Namespace with
      | some p => wildcardMatch p (ParseNamespaceFromObject raw)
      | none => true)
  && (match d.Selector with
      | some sel =>
        selectorMatches sel
          (match parseMetadataFromObject raw with
            | some m => labelsOfMeta m
            | none => [])
      | none => true)

/-- Specification-side matcher of claim C1: the match block describes the
resource and the exclude block does not. -/
def resourceMeetsDescriptionSpec (raw : Json) (matchesD exclude : ResourceDescription)
    (gvk : GroupVersionKind) : Bool :=
  describedBySpec raw matchesD gvk && !(describedBySpec raw exclude gvk)

/-- Counterexample to claim C1: a match namespace `ns-*` against the
resource namespace `ns-1`.  The glob semantics of the claim accept it,
but the source compares the match namespace by string equality and
returns false. -/
theorem resourceMeetsDescription_namespace_glob_cex :
    ResourceMeetsDescription
        (some (Json.obj [("kind", Json.str "Deployment"),
          ("metadata", Json.obj [("name", Json.str "d"), ("namespace", Json.str "ns-1")])]))
        ⟨["Deployment"], none, some "ns-*", none⟩
        ⟨[], none, none, none⟩ ⟨"apps", "v1", "Deployment"⟩ = .ok false
    ∧ resourceMeetsDescriptionSpec
        (Json.obj [("kind", Json.str "Deployment"),
          ("metadata", Json.obj [("name", Json.str "d"), ("namespace", Json.str "ns-1")])])
        ⟨["Deployment"], none, some "ns-*", none⟩
        ⟨[], none, none, none⟩ ⟨"apps", "v1", "Deployment"⟩ = true := by
  constructor
  · rfl
  · rfl

/-- Label parsing succeeds on all-string labels. -/
theorem labelStrings_all (kvs : Fields)
    (h : kvs.all (fun kv => match kv.2 with | .str _ => true | _ => false) = true) :
    labelStrings kvs = .ok (stringLabelPairs kvs) := by
  induction kvs with
  | nil => rfl
  | cons kv rest ih =>
    obtain ⟨k, v⟩ := kv
    simp only [List.all_cons, Bool.and_eq_true] at h
    cases v with
    | str s =>
      simp only [labelStrings, stringLabelPairs]
      rw [ih h.2]
      rfl
    | null => exact absurd h.1 (by simp)
    | bool b => exact absurd h.1 (by simp)
    | num n => exact absurd h.1 (by simp)
    | arr xs => exact absurd h.1 (by simp)
    | obj f => exact absurd h.1 (by simp)

/-- Under well-formed labels, `parseLabelsFromMetadata` never panics and
returns the extracted label set. -/
theorem parseLabels_wf (raw : Json) (h : labelsWellFormed raw = true) (m : Fields)
    (hm : parseMetadataFromObject raw = some m) :
    parseLabelsFromMetadata m = .ok (labelsOfMeta m) := by
  have hlab : (match lookupField m "labels" with
      | some (.obj kvs) =>
        kvs.all (fun kv => match kv.2 with | .str _ => true | _ => false)
      | _ => true) = true := by
    unfold labelsWellFormed at h
    rw [hm] at h
    exact h
  unfold parseLabelsFromMetadata labelsOfMeta
  cases hl : lookupField m "labels" with
  | none => rfl
  | some v =>
    cases v with
    | obj kvs =>
      rw [hl] at hlab
      exact labelStrings_all kvs hlab
    | null => rfl
    | bool b => rfl
    | num n => rfl
    | str sv => rfl
    | arr xs => rfl

/-- Closed form of the selector step under well-formed labels. -/
theorem selectorBlocks_eq (raw : Json) (h : labelsWellFormed raw = true)
    (selOpt : Option LabelSelector) (blockWhen : Bool) :
    selectorBlocks selOpt (parseMetadataFromObject raw) blockWhen =
      .ok (match selOpt with
        | none => false
        | some sel =>
          if labelSelectorValid sel = false then true
          else
            match parseMetadataFromObject raw with
            | none => false
            | some m => selectorMatches sel (labelsOfMeta m) == blockWhen) := by
  cases selOpt with
  | none => rfl
  | some sel =>
    simp only [selectorBlocks]
    cases hv : labelSelectorValid sel with
    | false => simp [hv]
    | true =>
      simp only [hv, Bool.not_true, Bool.false_eq_true, if_false]
      cases hm : parseMetadataFromObject raw with
      | none => simp
      | some m => simp [parseLabels_wf raw h m hm, Bind.bind, Except.bind]

/-- An early-return guard folds into a boolean conjunct. -/
theorem guard_ok (c : Bool) (rest : Except EvalErr Bool) (b : Bool) (hr : rest = .ok b) :
    (if c = true then (.ok false : Except EvalErr Bool) else rest) = .ok (!c && b) := by
  cases c <;> simp [hr]

/-- Amended claim C1 matcher: what `ResourceMeetsDescription` actually
decides.  Kind membership is taken from the match kinds only (the exclude
kinds are ignored); the match name is a glob but the match namespace is
compared by string EQUALITY; the exclude checks are per-field vetoes
(name glob hit, namespace equality, selector hit), not a conjunctive
exclude-block match; an invalid selector rejects; and with no metadata
object both selector comparisons are skipped. -/
def resourceMeetsDescriptionAmended (raw : Json) (matchesD exclude : ResourceDescription)
    (gvk : GroupVersionKind) : Bool :=
  findKind matchesD.Kinds gvk.kind
  && (match matchesD.Name with
      | some p => wildcardMatch p (ParseNameFromObject raw)
      | none => true)
  && (match exclude.Name with
      | some p => !wildcardMatch p (ParseNameFromObject raw)
      | none => true)
  && (match matchesD.Namespace with
      | some ns => ns == ParseNamespaceFromObject raw
      | none => true)
  && (match exclude.Namespace with
      | some ns => ns != ParseNamespaceFromObject raw
      | none => true)
  && (match matchesD.Selector with
      | some sel =>
        labelSelectorValid sel
        && (match parseMetadataFromObject raw with
            | some m => selectorMatches sel (labelsOfMeta m)
            | none => true)
      | none => true)
  && (match exclude.Selector with
      | some sel =>
        labelSelectorValid sel
        && (match parseMetadataFromObject raw with
            | some m => !selectorMatches sel (labelsOfMeta m)
            | none => true)
      | none => true)

/-- Amended claim C1: under well-formed labels the implemented matcher
computes exactly `resourceMeetsDescriptionAmended`. -/
theorem resourceMeetsDescription_characterization (raw : Json)
    (matchesD exclude : ResourceDescription) (gvk : GroupVersionKind)
    (h : labelsWellFormed raw = true) :
    ResourceMeetsDescription (some raw) matchesD exclude gvk =
      .ok (resourceMeetsDescriptionAmended raw matchesD exclude gvk) := by
  obtain ⟨mKinds, mName, mNs, mSel⟩ := matchesD
  obtain ⟨eKinds, eName, eNs, eSel⟩ := exclude
  simp only [ResourceMeetsDescription, resourceMeetsDescriptionAmended]
  cases hf : findKind mKinds gvk.kind with
  | false => simp [hf]
  | true =>
    simp only [hf, Bool.not_true, Bool.false_eq_true, if_false, Bool.true_and]
    have eSelNeg : ∀ selOpt : Option LabelSelector,
        (!(match selOpt with
          | none => false
          | some sel =>
            if labelSelectorValid sel = false then true
            else
              match parseMetadataFromObject raw with
              | none => false
              | some m => selectorMatches sel (labelsOfMeta m) == false)) =
        (match selOpt with
          | some sel =>
            labelSelectorValid sel
            && (match parseMetadataFromObject raw with
                | some m => selectorMatches sel (labelsOfMeta m)
                | none => true)
          | none => true) := by
      intro selOpt
      cases selOpt with
      | none => simp
      | some sel =>
        cases hv : labelSelectorValid sel with
        | false => simp [hv]
        | true =>
          cases hm : parseMetadataFromObject raw with
          | none => simp [hv]
          | some m => cases hsm : selectorMatches sel (labelsOfMeta m) <;> simp [hv, hsm]
    have eSelPos : ∀ selOpt : Option LabelSelector,
        (!(match selOpt with
          | none => false
          | some sel =>
            if labelSelectorValid sel = false then true
            else
              match parseMetadataFromObject raw with
              | none => false
              | some m => selectorMatches sel (labelsOfMeta m) == true)) =
        (match selOpt with
          | some sel =>
            labelSelectorValid sel
            && (match parseMetadataFromObject raw with
                | some m => !selectorMatches sel (labelsOfMeta m)
                | none => true)
          | none => true) := by
      intro selOpt
      cases selOpt with
      | none => simp
      | some sel =>
        cases hv : labelSelectorValid sel with
        | false => simp [hv]
        | true =>
          cases hm : parseMetadataFromObject raw with
          | none => simp [hv]
          | some m => cases hsm : selectorMatches sel (labelsOfMeta m) <;> simp [hv, hsm]
    have hchain :
        (do
          let blocked ← selectorBlocks mSel (parseMetadataFromObject raw) false
          if blocked then (.ok false : Except EvalErr Bool)
          else do
            let blocked2 ← selectorBlocks eSel (parseMetadataFromObject raw) true
            if blocked2 then (.ok false : Except EvalErr Bool)
            else .ok true) =
          .ok ((match mSel with
            | some sel =>
              labelSelectorValid sel
              && (match parseMetadataFromObject raw with
                  | some m => selectorMatches sel (labelsOfMeta m)
                  | none => true)
            | none => true)
          && (match eSel with
            | some sel =>
              labelSelectorValid sel
              && (match parseMetadataFromObject raw with
                  | some m => !selectorMatches sel (labelsOfMeta m)
                  | none => true)
            | none => true)) := by
      rw [selectorBlocks_eq raw h mSel false, selectorBlocks_eq raw h eSel true]
      simp only [Bind.bind, Except.bind]
      rw [guard_ok _ _ _ (guard_ok _ _ _ rfl)]
      congr 1
      rw [eSelNeg mSel, eSelPos eSel]
      simp
    rw [guard_ok _ _ _ (guard_ok _ _ _ (guard_ok _ _ _ (guard_ok _ _ _ hchain)))]
    congr 1
    cases mName <;> cases eName <;> cases mNs <;> cases eNs <;>
      simp [bne, Bool.and_assoc]

/-- Witness for C1 at a resource with labels and a selector. -/
theorem resourceMeetsDescription_characterization_witness :
    ResourceMeetsDescription
        (some (Json.obj [("kind", Json.str "Deployment"),
          ("metadata", Json.obj [("name", Json.str "d"),
            ("labels", Json.obj [("app", Json.str "nginx")])])]))
        ⟨["Deployment"], some "d*", none,
          some ⟨[("app", "nginx")], []⟩⟩
        ⟨[], none, none, none⟩ ⟨"apps", "v1", "Deployment"⟩ =
      .ok (resourceMeetsDescriptionAmended
        (Json.obj [("kind", Json.str "Deployment"),
          ("metadata", Json.obj [("name", Json.str "d"),
            ("labels", Json.obj [("app", Json.str "nginx")])])])
        ⟨["Deployment"], some "d*", none,
          some ⟨[("app", "nginx")], []⟩⟩
        ⟨[], none, none, none⟩ ⟨"apps", "v1", "Deployment"⟩) := by
  exact resourceMeetsDescription_characterization _ _ _ _ (by decide)

/- ---------------------------------------------------------------------
Claim C5: rule-to-rule patch visibility in `Mutate`.
--------------------------------------------------------------------- -/

/-- Demo resource for C5: empty metadata object. -/
def mutDemoRaw : Json := Json.obj [("metadata", Json.obj [])]

/-- Demo mutation rule for C5: overlay setting one metadata field. -/
def mutDemoRule (nm fieldKey fieldVal : String) : Rule :=
  ⟨nm, ⟨["Deployment"], none, none, none⟩, ⟨[], none, none, none⟩,
    some ⟨some (Json.obj [("metadata", Json.obj [(fieldKey, Json.str fieldVal)])]), []⟩⟩

/-- One `Mutate` iteration for an applicable overlay rule with explicit
patches absent: the patches are appended and the next working document is
the ORIGINAL raw resource patched with only them. -/
theorem mutateRules_cons_eval (rest : List Rule) (rawResource : Json)
    (gvk : GroupVersionKind) (allPatches : List Patch) (patchedDocument : Json)
    (rule : Rule) (ov : Json) (ps : List Patch)
    (hmut : rule.mutation = some ⟨some ov, []⟩)
    (hmatch : ResourceMeetsDescription (some rawResource) rule.matchResources
      rule.excludeResources gvk = .ok true)
    (hov : ProcessOverlay ov patchedDocument = .ok ps)
    (hne : ps ≠ []) :
    mutateRules (rule :: rest) rawResource gvk allPatches patchedDocument =
      mutateRules rest rawResource gvk (allPatches ++ ps)
        (ApplyPatches rawResource ps).1 := by
  have hempty : ps.isEmpty = false := by
    cases ps with
    | nil => exact absurd rfl hne
    | cons p rest2 => rfl
  simp only [mutateRules, hmut, hmatch, hov, hempty, Bind.bind, Except.bind,
    Bool.not_true, Bool.false_eq_true, if_false, ite_false, mutateRuleTail,
    List.isEmpty_nil, ite_true, if_true]

/-- Counterexample to claim C5 on a three-rule policy: rule 1 adds
`metadata.x`, rule 2 adds `metadata.y`, rule 3 writes `metadata.x` again.
Were patches of rule 1 visible to rule 3, rule 3 would see `x` present and
emit a `replace` (second conjunct); instead the working document before
rule 3 is the ORIGINAL resource with only the patches of rule 2, so rule 3
emits `add` again, and the final patched document has lost `y`. -/
theorem mutate_sequential_composition_cex :
    Mutate ⟨"p", [mutDemoRule "r1" "x" "1", mutDemoRule "r2" "y" "2",
        mutDemoRule "r3" "x" "1"]⟩ mutDemoRaw ⟨"apps", "v1", "Deployment"⟩ =
      .ok ([⟨"add", "/metadata/x", Json.str "1"⟩, ⟨"add", "/metadata/y", Json.str "2"⟩,
          ⟨"add", "/metadata/x", Json.str "1"⟩],
        Json.obj [("metadata", Json.obj [("x", Json.str "1")])])
    ∧ ProcessOverlay (Json.obj [("metadata", Json.obj [("x", Json.str "1")])])
        (ApplyPatches mutDemoRaw [⟨"add", "/metadata/x", Json.str "1"⟩,
          ⟨"add", "/metadata/y", Json.str "2"⟩]).1 =
      .ok [⟨"replace", "/metadata/x", Json.str "1"⟩] := by
  have hov1 : ProcessOverlay (Json.obj [("metadata", Json.obj [("x", Json.str "1")])])
      mutDemoRaw = .ok [⟨"add", "/metadata/x", Json.str "1"⟩] := by
    simp [mutDemoRaw, ProcessOverlay, mutateResourceWithOverlay, applyOverlay,
      applyOverlayForSameTypes, applyOverlayToMap, typeTag, isConditionAnchor,
      isConditionAnchorChars, isAddingAnchor, isAddingAnchorChars, removeAnchor,
      removeAnchorChars, isExistanceAnchorChars, lookupField, insertSubtree,
      processSubtree, normalizePath, prepareJSONValue, hasOnlyAnchors, jsonSerialize,
      escapeString, escapeChars]
    rfl
  have hov2 : ProcessOverlay (Json.obj [("metadata", Json.obj [("y", Json.str "2")])])
      (Json.obj [("metadata", Json.obj [("x", Json.str "1")])]) =
      .ok [⟨"add", "/metadata/y", Json.str "2"⟩] := by
    simp [ProcessOverlay, mutateResourceWithOverlay, applyOverlay,
      applyOverlayForSameTypes, applyOverlayToMap, typeTag, isConditionAnchor,
      isConditionAnchorChars, isAddingAnchor, isAddingAnchorChars, removeAnchor,
      removeAnchorChars, isExistanceAnchorChars, lookupField, insertSubtree,
      processSubtree, normalizePath, prepareJSONValue, hasOnlyAnchors, jsonSerialize,
      escapeString, escapeChars]
    rfl
  have hov3 : ProcessOverlay (Json.obj [("metadata", Json.obj [("x", Json.str "1")])])
      (Json.obj [("metadata", Json.obj [("y", Json.str "2")])]) =
      .ok [⟨"add", "/metadata/x", Json.str "1"⟩] := by
    simp [ProcessOverlay, mutateResourceWithOverlay, applyOverlay,
      applyOverlayForSameTypes, applyOverlayToMap, typeTag, isConditionAnchor,
      isConditionAnchorChars, isAddingAnchor, isAddingAnchorChars, removeAnchor,
      removeAnchorChars, isExistanceAnchorChars, lookupField, insertSubtree,
      processSubtree, normalizePath, prepareJSONValue, hasOnlyAnchors, jsonSerialize,
      escapeString, escapeChars]
    rfl
  constructor
  · show mutateRules [mutDemoRule "r1" "x" "1", mutDemoRule "r2" "y" "2",
        mutDemoRule "r3" "x" "1"] mutDemoRaw ⟨"apps", "v1", "Deployment"⟩ [] mutDemoRaw = _
    rw [mutateRules_cons_eval [mutDemoRule "r2" "y" "2", mutDemoRule "r3" "x" "1"]
        mutDemoRaw ⟨"apps", "v1", "Deployment"⟩ [] mutDemoRaw (mutDemoRule "r1" "x" "1")
        (Json.obj [("metadata", Json.obj [("x", Json.str "1")])])
        [Patch.mk "add" "/metadata/x" (Json.str "1")] rfl rfl hov1 (by simp),
      show (ApplyPatches mutDemoRaw [Patch.mk "add" "/metadata/x" (Json.str "1")]).1 =
        Json.obj [("metadata", Json.obj [("x", Json.str "1")])] from rfl,
      mutateRules_cons_eval [mutDemoRule "r3" "x" "1"] mutDemoRaw
        ⟨"apps", "v1", "Deployment"⟩ ([] ++ [Patch.mk "add" "/metadata/x" (Json.str "1")])
        (Json.obj [("metadata", Json.obj [("x", Json.str "1")])]) (mutDemoRule "r2" "y" "2")
        (Json.obj [("metadata", Json.obj [("y", Json.str "2")])])
        [Patch.mk "add" "/metadata/y" (Json.str "2")] rfl rfl hov2 (by simp),
      show (ApplyPatches mutDemoRaw [Patch.mk "add" "/metadata/y" (Json.str "2")]).1 =
        Json.obj [("metadata", Json.obj [("y", Json.str "2")])] from rfl,
      mutateRules_cons_eval [] mutDemoRaw ⟨"apps", "v1", "Deployment"⟩
        ([] ++ [Patch.mk "add" "/metadata/x" (Json.str "1")] ++ [Patch.mk "add" "/metadata/y" (Json.str "2")])
        (Json.obj [("metadata", Json.obj [("y", Json.str "2")])]) (mutDemoRule "r3" "x" "1")
        (Json.obj [("metadata", Json.obj [("x", Json.str "1")])])
        [Patch.mk "add" "/metadata/x" (Json.str "1")] rfl rfl hov3 (by simp),
      show (ApplyPatches mutDemoRaw [Patch.mk "add" "/metadata/x" (Json.str "1")]).1 =
        Json.obj [("metadata", Json.obj [("x", Json.str "1")])] from rfl]
    simp only [mutateRules, List.nil_append, List.cons_append, List.append_nil]
  · rw [show (ApplyPatches mutDemoRaw [⟨"add", "/metadata/x", Json.str "1"⟩,
      ⟨"add", "/metadata/y", Json.str "2"⟩]).1 =
        Json.obj [("metadata", Json.obj [("x", Json.str "1"), ("y", Json.str "2")])] from rfl]
    simp [ProcessOverlay, mutateResourceWithOverlay, applyOverlay,
      applyOverlayForSameTypes, applyOverlayToMap, typeTag, isConditionAnchor,
      isConditionAnchorChars, isAddingAnchor, isAddingAnchorChars, removeAnchor,
      removeAnchorChars, isExistanceAnchorChars, lookupField, insertSubtree, replaceSubtree,
      processSubtree, normalizePath, prepareJSONValue, hasOnlyAnchors, jsonSerialize,
      escapeString, escapeChars]
    rfl

/-- Amended claim C5: after an applicable rule whose overlay yields
patches, the next working document is `ApplyPatches` of the ORIGINAL raw
resource with only that rule patches; patches of earlier rules are not
carried forward. -/
theorem mutateRules_step_uses_raw_resource (rest : List Rule) (rawResource : Json)
    (gvk : GroupVersionKind) (allPatches : List Patch) (patchedDocument : Json)
    (rule : Rule) (ov : Json) (ps : List Patch)
    (hmut : rule.mutation = some ⟨some ov, []⟩)
    (hmatch : ResourceMeetsDescription (some rawResource) rule.matchResources
      rule.excludeResources gvk = .ok true)
    (hov : ProcessOverlay ov patchedDocument = .ok ps)
    (hne : ps ≠ []) :
    mutateRules (rule :: rest) rawResource gvk allPatches patchedDocument =
      mutateRules rest rawResource gvk (allPatches ++ ps)
        (ApplyPatches rawResource ps).1 :=
  mutateRules_cons_eval rest rawResource gvk allPatches patchedDocument rule ov ps
    hmut hmatch hov hne

/-- Witness for C5 at a one-rule policy. -/
theorem mutateRules_step_uses_raw_resource_witness :
    mutateRules [mutDemoRule "r1" "x" "1"] mutDemoRaw ⟨"apps", "v1", "Deployment"⟩ []
        mutDemoRaw =
      mutateRules [] mutDemoRaw ⟨"apps", "v1", "Deployment"⟩
        ([] ++ [⟨"add", "/metadata/x", Json.str "1"⟩])
        (ApplyPatches mutDemoRaw [⟨"add", "/metadata/x", Json.str "1"⟩]).1 := by
  exact mutateRules_step_uses_raw_resource [] mutDemoRaw ⟨"apps", "v1", "Deployment"⟩ []
    mutDemoRaw (mutDemoRule "r1" "x" "1") (Json.obj [("metadata", Json.obj [("x", Json.str "1")])])
    [⟨"add", "/metadata/x", Json.str "1"⟩] rfl rfl
    (by
      simp [mutDemoRaw, ProcessOverlay, mutateResourceWithOverlay, applyOverlay,
        applyOverlayForSameTypes, applyOverlayToMap, typeTag, isConditionAnchor,
        isConditionAnchorChars, isAddingAnchor, isAddingAnchorChars, removeAnchor,
        removeAnchorChars, isExistanceAnchorChars, lookupField, insertSubtree,
        processSubtree, normalizePath, prepareJSONValue, hasOnlyAnchors, jsonSerialize]
      rfl)
    (by simp)

end Kyverno
